import Mathlib

/-!
Verification of the response-sanitization and schema-validation pipeline of
the QmentisAI repository (src/ReRefine.py — the "guided" analyzer variant —
and src/Refinement.py — the "baseline" variant).

Modelling notes.
* Parsed JSON values are embedded as `JVal`.  JSON numbers are modelled as
  integers (the repository's prompts and validation code work with integer
  scores; Python-float specifics such as NaN/Infinity are outside the model).
  Python `bool` is a subclass of `int`, so `isinstance(x, (int, float))`
  accepts booleans and `int(True) = 1`; `toNum` reflects this.
* A Python `dict` produced by `json.loads` is embedded as an insertion-ordered
  association list (`Dict`).  Assignment to an existing key updates the entry
  in place; assignment to a fresh key appends (`dset`), exactly as in CPython.
* `json.loads` / the chat-model invocation are external collaborators: the
  analyzed operation receives their outcome as an `Except String JVal`
  argument (a parse or invocation failure is `.error msg`).
* Python exceptions raised inside `analyze_user_story`'s `try` block are
  embedded as `Except PyErr`.  The exact interpreter message text is
  abstracted by `pyMsg` (only its non-emptiness is relied upon).
* Strings inside JSON values are lists of characters, so that the
  sanitization and regex-substitution functions of the source can be given
  directly as executable definitions.
-/

/-- A parsed JSON value (the result of `json.loads` on the model response). -/
inductive JVal where
  | jnull : JVal
  | jbool : Bool → JVal
  | jint : Int → JVal
  | jstr : List Char → JVal
  | jarr : List JVal → JVal
  | jobj : List (String × JVal) → JVal

/-- A Python dict, as an insertion-ordered association list. -/
abbrev Dict := List (String × JVal)

/-- Dictionary lookup (`d[k]` / `k in d`): first entry with the given key. -/
def dget : Dict → String → Option JVal
  | [], _ => none
  | (k', v) :: t, k => if k' = k then some v else dget t k

/-- Dictionary assignment `d[k] = v`: update in place, else append (CPython
insertion-order semantics). -/
def dset : Dict → String → JVal → Dict
  | [], k, v => [(k, v)]
  | (k', v') :: t, k, v => if k' = k then (k, v) :: t else (k', v') :: dset t k v

theorem dget_dset_self (d : Dict) (k : String) (v : JVal) :
    dget (dset d k v) k = some v := by
  induction d with
  | nil => simp [dget, dset]
  | cons h t ih =>
    obtain ⟨k', v'⟩ := h
    by_cases hk : k' = k
    · simp [dget, dset, hk]
    · simp [dget, dset, hk, ih]

theorem dget_dset_ne (d : Dict) (k k' : String) (v : JVal) (h : k ≠ k') :
    dget (dset d k v) k' = dget d k' := by
  induction d with
  | nil => simp [dget, dset, h]
  | cons hd t ih =>
    obtain ⟨k'', v''⟩ := hd
    by_cases hk : k'' = k
    · subst hk
      simp [dget, dset, h]
    · simp [dget, dset, hk, ih]

theorem dset_self (d : Dict) (k : String) (v : JVal) (h : dget d k = some v) :
    dset d k v = d := by
  induction d with
  | nil => simp [dget] at h
  | cons hd t ih =>
    obtain ⟨k', v'⟩ := hd
    by_cases hk : k' = k
    · subst hk
      simp [dget] at h
      simp [dset, h]
    · simp [dget, hk] at h
      simp [dset, hk, ih h]

theorem isSome_dget_dset (d : Dict) (k k' : String) (v : JVal)
    (h : (dget d k').isSome) : (dget (dset d k v) k').isSome := by
  by_cases hk : k = k'
  · subst hk
    simp [dget_dset_self]
  · rwa [dget_dset_ne d k k' v hk]

/-! ### Text Sanitizer — `sanitize_json_string` (identical in both source files)

Step 1 (line 12): delete every character in the control ranges
00–09, 0B, 0C, 0E–1F, 7F–9F.  Note that `'\n'` (0A) and `'\r'` (0D) are
*not* in the removed ranges, while `'\t'` (09) *is*.

Step 2 (lines 13–17): `re.sub(r'"((?:\\.|[^"\\])*)"', clean_string_value, s)`
scans for quoted literals and, inside each captured group, replaces the raw
characters `'\n'`, `'\t'`, `'\r'` with their two-character escapes.  The
regex alternation is deterministic: at each position either `\\.` applies
(a backslash followed by any character other than `'\n'` — `.` does not
match a newline) or `[^"\\]` applies (any non-quote non-backslash
character), and the literal closes at the first bare `'"'`. -/

/-- Characters removed outright by the first `re.sub` of
`sanitize_json_string`. -/
def isRemCtl (c : Char) : Bool :=
  (c.toNat ≤ 0x09) || (c.toNat = 0x0B) || (c.toNat = 0x0C) ||
  (0x0E ≤ c.toNat && c.toNat ≤ 0x1F) || (0x7F ≤ c.toNat && c.toNat ≤ 0x9F)

/-- First sanitization pass: drop the removable control characters. -/
def removeCtl (l : List Char) : List Char := l.filter (fun c => !(isRemCtl c))

/-- The body of `clean_string_value`: replace raw newline / tab / carriage
return by their two-character escape sequences (the three sequential
`str.replace` calls commute with this single pass because the inserted
characters `'\\'`, `'n'`, `'t'`, `'r'` are never themselves replaced). -/
def escClean : List Char → List Char
  | [] => []
  | c :: t =>
    (if c = '\n' then ['\\', 'n']
     else if c = '\t' then ['\\', 't']
     else if c = '\r' then ['\\', 'r'] else [c]) ++ escClean t

/-- Match the tail of the literal regex `((?:\\.|[^"\\])*)"` starting just
after an opening quote: returns the captured group and the remainder after
the closing quote, or `none` if no literal starts here. -/
def matchLit : List Char → Option (List Char × List Char)
  | [] => none
  | '"' :: rest => some ([], rest)
  | '\\' :: c :: rest =>
    if c = '\n' then none
    else
      match matchLit rest with
      | none => none
      | some (v, r) => some ('\\' :: c :: v, r)
  | ['\\'] => none
  | c :: rest =>
    match matchLit rest with
    | none => none
    | some (v, r) => some (c :: v, r)

theorem matchLit_decomp :
    ∀ l v r, matchLit l = some (v, r) → l = v ++ '"' :: r := by
  intro l
  induction l using matchLit.induct with
  | case1 => simp [matchLit]
  | case2 rest => intro v r h; simp [matchLit] at h; simp [h.1, h.2]
  | case3 rest => simp [matchLit]
  | case4 c rest hc hm ih => intro v r h; simp [matchLit, hc, hm] at h
  | case5 c rest hc v' r' hm ih =>
    intro v r h
    simp [matchLit, hc, hm] at h
    obtain ⟨hv, hr⟩ := h
    subst hv; subst hr
    simpa using ih v' r' hm
  | case6 => simp [matchLit]
  | case7 c rest h1 h2 h3 hm ih =>
    have hcq : c ≠ '"' := fun hh => h1 hh
    have hcb : c ≠ '\\' := by
      intro hh
      cases rest with
      | nil => exact h3 hh rfl
      | cons a b => exact h2 a b hh rfl
    intro v r h
    simp [matchLit, hcq, hcb, hm] at h
  | case8 c rest h1 h2 h3 v' r' hm ih =>
    have hcq : c ≠ '"' := fun hh => h1 hh
    have hcb : c ≠ '\\' := by
      intro hh
      cases rest with
      | nil => exact h3 hh rfl
      | cons a b => exact h2 a b hh rfl
    intro v r h
    simp [matchLit, hcq, hcb, hm] at h
    obtain ⟨hv, hr⟩ := h
    subst hv; subst hr
    simpa using ih v' r' hm

theorem matchLit_length {l v r : List Char} (h : matchLit l = some (v, r)) :
    r.length < l.length := by
  have := matchLit_decomp l v r h
  subst this
  simp
  omega

/-- Second sanitization pass: the `re.sub` over quoted literals.  The Python
regex engine tries a match at each position from left to right; a match can
only start at a `'"'`; on success scanning resumes after the match, on
failure at the next character. -/
def subLits : List Char → List Char
  | [] => []
  | c :: t =>
    if c = '"' then
      match h : matchLit t with
      | some (v, r) => '"' :: (escClean v ++ '"' :: subLits r)
      | none => '"' :: subLits t
    else
      c :: subLits t
termination_by l => l.length
decreasing_by
  · exact Nat.lt_succ_of_lt (matchLit_length h)
  · simp
  · simp

/-- `sanitize_json_string` (src/ReRefine.py and src/Refinement.py,
lines 10–18). -/
def sanitize (l : List Char) : List Char := subLits (removeCtl l)

/-! ### The `re.sub` of the guided Normalizer (src/ReRefine.py lines 223–224)

Pattern `INVEST Score improved from \d+/30 to \d+/30`: fixed literals
around two nonempty digit runs.  Backtracking is vacuous here: `\d+` is
greedy and the character after each run in the pattern is `'/'`, which is
not a digit, so the maximal digit run is the only viable one. -/

/-- Consume an exact literal from the front of a character list. -/
def dropPre : List Char → List Char → Option (List Char)
  | [], l => some l
  | _ :: _, [] => none
  | p :: ps, c :: cs => if c = p then dropPre ps cs else none

/-- Length of the leading ASCII-digit run. -/
def digitRun : List Char → Nat
  | [] => 0
  | c :: t => if c.isDigit then digitRun t + 1 else 0

/-- Consume `\d+`: at least one leading digit, maximal run. -/
def digits1 (l : List Char) : Option (List Char) :=
  if digitRun l = 0 then none else some (l.drop (digitRun l))

def invPat1 : List Char := "INVEST Score improved from ".toList
def invPat2 : List Char := "/30 to ".toList
def invPat3 : List Char := "/30".toList

/-- Try to match the score pattern at the head of `l`; on success return the
remainder after the match. -/
def matchInvest (l : List Char) : Option (List Char) :=
  (dropPre invPat1 l).bind fun r1 =>
    (digits1 r1).bind fun r2 =>
      (dropPre invPat2 r2).bind fun r3 =>
        (digits1 r3).bind fun r4 => dropPre invPat3 r4

theorem dropPre_length {p l r : List Char} (h : dropPre p l = some r) :
    r.length + p.length = l.length := by
  induction p generalizing l r with
  | nil => simp [dropPre] at h; subst h; simp
  | cons a ps ih =>
    cases l with
    | nil => simp [dropPre] at h
    | cons c cs =>
      by_cases hc : c = a
      · simp [dropPre, hc] at h
        have := ih h
        simp [List.length]
        omega
      · simp [dropPre, hc] at h

theorem digits1_length {l r : List Char} (h : digits1 l = some r) :
    r.length < l.length := by
  unfold digits1 at h
  by_cases h0 : digitRun l = 0
  · simp [h0] at h
  · simp [h0] at h
    subst h
    have hle : digitRun l ≤ l.length := by
      induction l with
      | nil => simp [digitRun]
      | cons c t ih =>
        by_cases hd : c.isDigit <;> simp [digitRun, hd] <;> omega
    simp
    omega

theorem matchInvest_length {l r : List Char} (h : matchInvest l = some r) :
    r.length < l.length := by
  unfold matchInvest at h
  simp only [Option.bind_eq_some] at h
  obtain ⟨r1, h1, r2, h2, r3, h3, r4, h4, h5⟩ := h
  have e1 := dropPre_length h1
  have e2 := digits1_length h2
  have e3 := dropPre_length h3
  have e4 := digits1_length h4
  have e5 := dropPre_length h5
  have : invPat1.length = 27 := by decide
  omega

/-- The full `re.sub(score_pattern, repl, s)`: replace every leftmost
non-overlapping occurrence of the score pattern by `repl` (the replacement
text of line 224 contains no backreferences, so it is inserted verbatim). -/
def subInvest (repl : List Char) : List Char → List Char
  | [] => []
  | c :: t =>
    match h : matchInvest (c :: t) with
    | some rest => repl ++ subInvest repl rest
    | none => c :: subInvest repl t
termination_by l => l.length
decreasing_by
  · exact matchInvest_length h
  · simp

/-! ### Result Normalizer — shared pieces -/

/-- Python exceptions that can be raised inside the `try` of
`analyze_user_story` by the normalization code. -/
inductive PyErr where
  | typeError : PyErr
  | keyError : String → PyErr
  | valueError : PyErr

/-- Modelled `str(e)` text of an exception.  The precise interpreter wording
is abstracted; the claims rely only on it being non-empty. -/
def pyMsg : PyErr → List Char
  | PyErr.typeError => "TypeError".toList
  | PyErr.keyError k => ("KeyError: " ++ k).toList
  | PyErr.valueError => "ValueError".toList

/-- `isinstance(v, (int, float))` together with `int(v)` on the accepted
values.  Python `bool` is a subclass of `int` (`int(True) = 1`); JSON
numbers are modelled as integers, so on the accepted values `int(·)` never
raises. -/
def toNum : JVal → Option Int
  | JVal.jint n => some n
  | JVal.jbool b => some (if b then 1 else 0)
  | _ => none

/-- `int("...")`: optional sign followed by at least one ASCII digit
(whitespace / underscore tolerance of CPython is not modelled). -/
def parseIntStr (l : List Char) : Option Int :=
  match l with
  | '-' :: ds => if ds ≠ [] ∧ ds.all Char.isDigit
                 then some (-(ds.foldl (fun a c => a * 10 + (c.toNat - 48 : Int)) 0))
                 else none
  | '+' :: ds => if ds ≠ [] ∧ ds.all Char.isDigit
                 then some (ds.foldl (fun a c => a * 10 + (c.toNat - 48 : Int)) 0)
                 else none
  | ds => if ds ≠ [] ∧ ds.all Char.isDigit
          then some (ds.foldl (fun a c => a * 10 + (c.toNat - 48 : Int)) 0)
          else none

/-- The bare `int(v)` call of the baseline variant (no `isinstance` guard):
accepts ints, bools and numeric strings, raises otherwise. -/
def pyToInt : JVal → Except PyErr Int
  | JVal.jint n => Except.ok n
  | JVal.jbool b => Except.ok (if b then 1 else 0)
  | JVal.jstr s =>
    match parseIntStr s with
    | some n => Except.ok n
    | none => Except.error PyErr.valueError
  | _ => Except.error PyErr.typeError

/-- `max(1, min(5, score))`. -/
def clamp15 (n : Int) : Int := max 1 (min 5 n)

/-- `str(n)` for an integer, as used by the f-string formatting. -/
def intChars (i : Int) : List Char :=
  if i < 0 then '-' :: Nat.toDigits 10 (-i).toNat else Nat.toDigits 10 i.toNat

/-- Default `OriginalUserStory` / `ImprovedUserStory` section. -/
def userStoryDefault : JVal :=
  JVal.jobj [("Title", JVal.jstr []), ("Description", JVal.jstr []),
             ("AcceptanceCriteria", JVal.jarr []),
             ("AdditionalInformation", JVal.jstr [])]

/-- Default criterion section of the guided variant (src/ReRefine.py
line 182). -/
def critDefaultG : Dict :=
  [("score", JVal.jint 0), ("improved_score", JVal.jint 0),
   ("explanation", JVal.jstr []), ("recommendation", JVal.jstr [])]

/-- Default criterion section of the baseline variant (src/Refinement.py
line 165). -/
def critDefaultB : Dict :=
  [("score", JVal.jint 0), ("explanation", JVal.jstr []),
   ("recommendation", JVal.jstr [])]

/-- Default `overall` section of the guided variant (src/ReRefine.py
line 180): the caller-supplied `input_score` is passed through. -/
def overallDefaultG (inputScore : Int) : Dict :=
  [("input_score", JVal.jint inputScore), ("improved_score", JVal.jint 0),
   ("summary", JVal.jstr []), ("refinement_summary", JVal.jstr [])]

/-- Default `overall` section of the baseline variant (src/Refinement.py
line 163). -/
def overallDefaultB : Dict :=
  [("score", JVal.jint 0), ("improved_score", JVal.jint 0),
   ("summary", JVal.jstr []), ("refinement_summary", JVal.jstr [])]

def requiredSections : List String :=
  ["OriginalUserStory", "ImprovedUserStory", "Independent", "Negotiable",
   "Valuable", "Estimable", "Small", "Testable", "overall"]

def critNames : List String :=
  ["Independent", "Negotiable", "Valuable", "Estimable", "Small", "Testable"]

/-- The `for section in required_sections: if section not in result: ...`
loop, parameterized by the per-section default. -/
def ensureList (deflt : String → JVal) : Dict → List String → Dict
  | d, [] => d
  | d, k :: ks =>
    ensureList deflt (if (dget d k).isSome then d else dset d k (deflt k)) ks

/-- Per-section default of the guided variant (lines 175–182). -/
def sectionDefaultG (inputScore : Int) (k : String) : JVal :=
  if k = "OriginalUserStory" ∨ k = "ImprovedUserStory" then userStoryDefault
  else if k = "overall" then JVal.jobj (overallDefaultG inputScore)
  else JVal.jobj critDefaultG

/-- Per-section default of the baseline variant (lines 158–165). -/
def sectionDefaultB (k : String) : JVal :=
  if k = "OriginalUserStory" ∨ k = "ImprovedUserStory" then userStoryDefault
  else if k = "overall" then JVal.jobj overallDefaultB
  else JVal.jobj critDefaultB

/-! ### Guided criterion validation (src/ReRefine.py lines 184–204) -/

/-- One `if "k" not in sec or not isinstance(sec["k"], (int, float)): ... else
try: sec["k"] = max(1, min(5, int(sec["k"]))) except ...` block.  With
numbers modelled as integers the inner `int(·)` cannot raise, so the
`except (ValueError, TypeError)` branch (reachable in CPython only for
float NaN) does not appear. -/
def fixField (s : Dict) (k : String) : Dict :=
  match dget s k with
  | none => dset s k (JVal.jint 0)
  | some v =>
    match toNum v with
    | none => dset s k (JVal.jint 0)
    | some n => dset s k (JVal.jint (clamp15 n))

/-- Validate one criterion of the guided variant: `score` first, then
`improved_score`.  A non-dict section value makes the surrounding membership
test or item assignment raise, which the outer handler turns into the Error
Result. -/
def fixCritG (d : Dict) (c : String) : Except PyErr Dict :=
  match dget d c with
  | some (JVal.jobj s) =>
    Except.ok (dset d c (JVal.jobj (fixField (fixField s "score") "improved_score")))
  | some _ => Except.error PyErr.typeError
  | none => Except.error (PyErr.keyError c)

def fixCritsG : Dict → List String → Except PyErr Dict
  | d, [] => Except.ok d
  | d, c :: cs =>
    match fixCritG d c with
    | Except.error e => Except.error e
    | Except.ok d' => fixCritsG d' cs

/-- Read a criterion's (already validated) `improved_score`; after
`fixCritG` the field always holds an integer, so the fallback 0 is
unreachable on the path where this is used. -/
def getImp (d : Dict) (c : String) : Int :=
  match dget d c with
  | some (JVal.jobj s) =>
    match dget s "improved_score" with
    | some (JVal.jint n) => n
    | _ => 0
  | _ => 0

/-- `calculated_improved_score = sum(result[c]["improved_score"] for c in
[...])` (line 207). -/
def sumImp (d : Dict) : Int := (critNames.map (getImp d)).sum

/-- The replacement / appended sentence
`f"INVEST Score improved from {input}/30 to {calc}/30"`. -/
def investLine (inp cal : Int) : List Char :=
  "INVEST Score improved from ".toList ++ intChars inp ++ "/30 to ".toList ++
    intChars cal ++ "/30".toList

/-- The `if "k" not in overall or not isinstance(overall["k"], (int, float)):
overall["k"] = fallback` pattern of lines 210–211 and 214–215, read back as
the integer that the subsequent `int(·)` yields. -/
def overallNum (o : Dict) (k : String) (fallback : Int) : Int :=
  match dget o k with
  | some v => match toNum v with | some n => n | none => fallback
  | none => fallback

/-- Lines 222–225: `re.sub` the score sentence into the current
refinement summary; an empty (falsy) result is replaced by the freshly
formatted sentence. -/
def fixSummary (fmt cur : List Char) : List Char :=
  if subInvest fmt cur = [] then fmt else subInvest fmt cur

/-- Guided `overall` validation and mismatch repair (src/ReRefine.py
lines 209–225). -/
def fixOverallG (inputScore cal : Int) (d : Dict) : Except PyErr Dict :=
  match dget d "overall" with
  | some (JVal.jobj o) =>
    -- lines 210–212: missing / non-numeric input_score falls back to the
    -- caller's argument, then is clamped into [0, 30]
    let o1 := dset o "input_score"
      (JVal.jint (max 0 (min 30 (overallNum o "input_score" inputScore))))
    -- lines 214–216: missing / non-numeric improved_score falls back to the
    -- recomputed sum, then is clamped into [0, 30]
    let o2 := dset o1 "improved_score"
      (JVal.jint (max 0 (min 30 (overallNum o1 "improved_score" cal))))
    -- lines 218–225: reconcile a mismatch with the recomputed sum
    if max 0 (min 30 (overallNum o1 "improved_score" cal)) = cal then
      Except.ok (dset d "overall" (JVal.jobj o2))
    else
      let o3 := dset o2 "improved_score" (JVal.jint cal)
      match dget o3 "refinement_summary" with
      | some (JVal.jstr cur) =>
        let o4 := dset o3 "refinement_summary"
          (JVal.jstr (fixSummary
            (investLine (max 0 (min 30 (overallNum o "input_score" inputScore))) cal)
            cur))
        Except.ok (dset d "overall" (JVal.jobj o4))
      | none =>
        -- `.get("refinement_summary", "")` on a missing key yields "";
        -- `re.sub` leaves "" unchanged, so the formatted sentence is used
        let o4 := dset o3 "refinement_summary"
          (JVal.jstr (investLine
            (max 0 (min 30 (overallNum o "input_score" inputScore))) cal))
        Except.ok (dset d "overall" (JVal.jobj o4))
      | some _ => Except.error PyErr.typeError  -- re.sub on a non-string
  | some _ => Except.error PyErr.typeError
  | none => Except.error (PyErr.keyError "overall")

/-- The body of the guided `analyze_user_story`'s `try` block after
`json.loads` (src/ReRefine.py lines 172–227), on the parsed value. -/
def analyzeCoreG (inputScore : Int) (j : JVal) : Except PyErr Dict :=
  match j with
  | JVal.jobj d =>
    let d1 := ensureList (sectionDefaultG inputScore) d requiredSections
    match fixCritsG d1 critNames with
    | Except.error e => Except.error e
    | Except.ok d2 => fixOverallG inputScore (sumImp d2) d2
  | _ => Except.error PyErr.typeError

/-- The guided Error Result (src/ReRefine.py lines 230–241). -/
def errorDictG (inputScore : Int) (msg : List Char) : Dict :=
  [("error", JVal.jstr msg),
   ("OriginalUserStory", userStoryDefault),
   ("ImprovedUserStory", userStoryDefault),
   ("Independent", JVal.jobj critDefaultG),
   ("Negotiable", JVal.jobj critDefaultG),
   ("Valuable", JVal.jobj critDefaultG),
   ("Estimable", JVal.jobj critDefaultG),
   ("Small", JVal.jobj critDefaultG),
   ("Testable", JVal.jobj critDefaultG),
   ("overall", JVal.jobj
     [("input_score", JVal.jint inputScore), ("improved_score", JVal.jint 0),
      ("summary", JVal.jstr "Error in analysis".toList),
      ("refinement_summary", JVal.jstr [])])]

/-- The guided `analyze_user_story`, as a function of the outcome of the
model invocation + sanitization + `json.loads` composite (`.error m` models
any exception raised before or during parsing) and of the caller-supplied
`input_score`.  The surrounding `try/except Exception` converts every
failure into the Error Result. -/
def analyzeG (resp : Except (List Char) JVal) (inputScore : Int) : Dict :=
  match resp with
  | Except.error m => errorDictG inputScore ("Analysis failed: ".toList ++ m)
  | Except.ok j =>
    match analyzeCoreG inputScore j with
    | Except.ok d => d
    | Except.error e =>
      errorDictG inputScore ("Analysis failed: ".toList ++ pyMsg e)

/-! ### Baseline criterion validation (src/Refinement.py lines 167–171)

`result[criterion]["score"] = max(1, min(5, int(result[criterion]["score"])))`
has no membership test and no `try`: a missing `score`, or one that `int(·)`
cannot coerce, raises out to the outer handler. -/

/-- Validate one criterion of the baseline variant. -/
def fixCritB (d : Dict) (c : String) : Except PyErr Dict :=
  match dget d c with
  | some (JVal.jobj s) =>
    match dget s "score" with
    | none => Except.error (PyErr.keyError "score")
    | some v =>
      match pyToInt v with
      | Except.error e => Except.error e
      | Except.ok n =>
        Except.ok (dset d c (JVal.jobj (dset s "score" (JVal.jint (clamp15 n)))))
  | some _ => Except.error PyErr.typeError
  | none => Except.error (PyErr.keyError c)

def fixCritsB : Dict → List String → Except PyErr Dict
  | d, [] => Except.ok d
  | d, c :: cs =>
    match fixCritB d c with
    | Except.error e => Except.error e
    | Except.ok d' => fixCritsB d' cs

/-- Read a criterion's (already validated) `score`. -/
def getScore (d : Dict) (c : String) : Int :=
  match dget d c with
  | some (JVal.jobj s) =>
    match dget s "score" with
    | some (JVal.jint n) => n
    | _ => 0
  | _ => 0

/-- `result["overall"]["score"] = sum(result[c]["score"] for c in [...])`
(src/Refinement.py line 170). -/
def sumScore (d : Dict) : Int := (critNames.map (getScore d)).sum

/-- Baseline `overall` handling (src/Refinement.py lines 170–171):
`overall["score"]` is overwritten with the recomputed sum, and
`overall["improved_score"] = min(30, int(overall.get("improved_score", 0)))`
— note the absence of a lower clamp. -/
def fixOverallB (cal : Int) (d : Dict) : Except PyErr Dict :=
  match dget d "overall" with
  | some (JVal.jobj o) =>
    let o1 := dset o "score" (JVal.jint cal)
    match pyToInt (match dget o1 "improved_score" with
                   | some v => v
                   | none => JVal.jint 0) with
    | Except.error e => Except.error e
    | Except.ok n =>
      Except.ok (dset d "overall"
        (JVal.jobj (dset o1 "improved_score" (JVal.jint (min 30 n)))))
  | some _ => Except.error PyErr.typeError
  | none => Except.error (PyErr.keyError "overall")

/-- The body of the baseline `analyze_user_story`'s `try` block after
`json.loads` (src/Refinement.py lines 155–173). -/
def analyzeCoreB (j : JVal) : Except PyErr Dict :=
  match j with
  | JVal.jobj d =>
    let d1 := ensureList sectionDefaultB d requiredSections
    match fixCritsB d1 critNames with
    | Except.error e => Except.error e
    | Except.ok d2 => fixOverallB (sumScore d2) d2
  | _ => Except.error PyErr.typeError

/-- The baseline Error Result (src/Refinement.py lines 176–187). -/
def errorDictB (msg : List Char) : Dict :=
  [("error", JVal.jstr msg),
   ("OriginalUserStory", userStoryDefault),
   ("ImprovedUserStory", userStoryDefault),
   ("Independent", JVal.jobj critDefaultB),
   ("Negotiable", JVal.jobj critDefaultB),
   ("Valuable", JVal.jobj critDefaultB),
   ("Estimable", JVal.jobj critDefaultB),
   ("Small", JVal.jobj critDefaultB),
   ("Testable", JVal.jobj critDefaultB),
   ("overall", JVal.jobj
     [("score", JVal.jint 0), ("improved_score", JVal.jint 0),
      ("summary", JVal.jstr "Error in analysis".toList),
      ("refinement_summary", JVal.jstr [])])]

/-- The baseline `analyze_user_story`, over the outcome of invocation +
sanitization + parsing. -/
def analyzeB (resp : Except (List Char) JVal) : Dict :=
  match resp with
  | Except.error m => errorDictB ("Analysis failed: ".toList ++ m)
  | Except.ok j =>
    match analyzeCoreB j with
    | Except.ok d => d
    | Except.error e => errorDictB ("Analysis failed: ".toList ++ pyMsg e)

/-! ### Input Preprocessor and Prompt Builder, guided variant
(src/ReRefine.py lines 34–159 and 243–282) -/

/-- Does the first list occur at the head of the second? -/
def isPre : List Char → List Char → Bool
  | [], _ => true
  | _ :: _, [] => false
  | p :: ps, c :: cs => c = p && isPre ps cs

/-- Python `sub in s` on strings (an empty needle is always contained). -/
def isSubstring : List Char → List Char → Bool
  | p, [] => p.isEmpty
  | p, c :: t => isPre p (c :: t) || isSubstring p t

/-- Python `key in container` for the container shapes `json.loads` can
produce: dict-key membership, substring test on strings, element equality
on lists (a string key can only equal string elements); `in` on the other
shapes raises `TypeError`. -/
def pyContains (container : JVal) (key : String) : Except PyErr Bool :=
  match container with
  | JVal.jobj d => Except.ok (dget d key).isSome
  | JVal.jstr s => Except.ok (isSubstring key.toList s)
  | JVal.jarr xs =>
    Except.ok (xs.any fun v =>
      match v with
      | JVal.jstr s => s == key.toList
      | _ => false)
  | _ => Except.error PyErr.typeError

def phAspects : List Char := "No specific aspects provided.".toList
def phContext : List Char := "No additional context provided.".toList

/-- The `for field in required_fields: if field not in user_story: raise`
loop of `preprocess_input` (lines 255–257). -/
def checkFields (us : JVal) : List String → Except PyErr Unit
  | [] => Except.ok ()
  | f :: fs =>
    match pyContains us f with
    | Except.error e => Except.error e
    | Except.ok b =>
      if b then checkFields us fs else Except.error PyErr.valueError

/-- `data.get(k, "")` followed by the `isinstance(·, str)` check of
`preprocess_input` (lines 260–262 and 266–268): a missing key defaults to
the empty string, a non-string value raises. -/
def strField (d : Dict) (k : String) : Except PyErr (List Char) :=
  match dget d k with
  | none => Except.ok []
  | some (JVal.jstr s) => Except.ok s
  | some _ => Except.error PyErr.valueError

/-- `data.get("overall", {}).get("score", 0)` (line 272); `.get` on a
non-dict raises `AttributeError` (modelled as a generic error). -/
def overallScoreField (d : Dict) : Except PyErr JVal :=
  match dget d "overall" with
  | none => Except.ok (JVal.jint 0)
  | some (JVal.jobj o) =>
    Except.ok (match dget o "score" with
               | some v => v
               | none => JVal.jint 0)
  | some _ => Except.error PyErr.typeError

/-- `preprocess_input` of the guided variant (src/ReRefine.py lines
243–282), on the already-parsed envelope (`json.loads` abstracted as for
the analyzer; a parse failure raises before this logic runs).  All raised
errors are re-wrapped as `ValueError` by the source; the claims only
depend on success versus failure, so the `PyErr` constructor choice for a
non-object envelope is nominal. -/
def preprocessG (data : JVal) :
    Except PyErr (JVal × List Char × List Char × Int) :=
  match data with
  | JVal.jobj d =>
    match dget d "UserStory" with
    | none => Except.error PyErr.valueError
    | some us =>
      match checkFields us
          ["Title", "Description", "AcceptanceCriteria",
           "AdditionalInformation"] with
      | Except.error e => Except.error e
      | Except.ok _ =>
        match strField d "aspects_to_enhance" with
        | Except.error e => Except.error e
        | Except.ok aspects =>
          let aspectsStr := if aspects = [] then phAspects else aspects
          match strField d "additional_context" with
          | Except.error e => Except.error e
          | Except.ok ctx =>
            let ctxStr := if ctx = [] then phContext else ctx
            -- input_score zeroed unless numeric, then clamped into [0, 30]
            match overallScoreField d with
            | Except.error e => Except.error e
            | Except.ok sv =>
              let sc := match toNum sv with | some n => n | none => 0
              Except.ok (us, aspectsStr, ctxStr, max 0 (min 30 sc))
  | _ => Except.error PyErr.typeError

/-- Hexadecimal digit (lowercase, as produced by `json.dumps`). -/
def hexDigit (n : Nat) : Char :=
  if n < 10 then Char.ofNat (48 + n) else Char.ofNat (87 + n)

/-- `json.dumps` escaping of one character inside a string value
(`ensure_ascii` `\uXXXX` escapes for the control plane; characters beyond
the basic multilingual plane are outside the model). -/
def jsonEscChar (c : Char) : List Char :=
  if c = '"' then ['\\', '"']
  else if c = '\\' then ['\\', '\\']
  else if c = '\n' then ['\\', 'n']
  else if c = '\t' then ['\\', 't']
  else if c = '\r' then ['\\', 'r']
  else if c.toNat < 0x20 || c.toNat ≥ 0x7F then
    '\\' :: 'u' :: [hexDigit (c.toNat / 4096 % 16), hexDigit (c.toNat / 256 % 16),
                    hexDigit (c.toNat / 16 % 16), hexDigit (c.toNat % 16)]
  else [c]

/-- Join with a separator (`json.dumps` default separators). -/
def joinSep (sep : List Char) : List (List Char) → List Char
  | [] => []
  | [x] => x
  | x :: xs => x ++ sep ++ joinSep sep xs

mutual

/-- `json.dumps(v)` with default options. -/
def pyJsonDumps : JVal → List Char
  | JVal.jnull => "null".toList
  | JVal.jbool b => if b then "true".toList else "false".toList
  | JVal.jint n => intChars n
  | JVal.jstr s => '"' :: (s.map jsonEscChar).flatten ++ ['"']
  | JVal.jarr xs => '[' :: joinSep ", ".toList (dumpsList xs) ++ [']']
  | JVal.jobj fs =>
    Char.ofNat 123 :: joinSep ", ".toList (dumpsPairs fs) ++ [Char.ofNat 125]

def dumpsList : List JVal → List (List Char)
  | [] => []
  | v :: vs => pyJsonDumps v :: dumpsList vs

def dumpsPairs : List (String × JVal) → List (List Char)
  | [] => []
  | (k, v) :: fs =>
    ('"' :: (k.toList.map jsonEscChar).flatten ++ '"' :: ':' :: ' ' :: pyJsonDumps v)
      :: dumpsPairs fs

end

/-- `if not isinstance(user_story, str): user_story = json.dumps(user_story)`
(line 36–37). -/
def userStoryText (us : JVal) : List Char :=
  match us with
  | JVal.jstr s => s
  | v => pyJsonDumps v

/-- The `SystemMessage` content of the guided prompt (src/ReRefine.py
lines 40–53). -/
def systemTextG : List Char :=
  ("You are an expert agile coach specializing in analyzing user stories using the INVEST criteria. \nYour task is twofold:\n1. Analyze the original user story and calculate its INVEST score.\n2. Create an improved version and provide a detailed refinement summary, considering the provided refinement guidance.\n\nFollow this structured approach:\n- Extract the original components (Title, Description, AcceptanceCriteria, AdditionalInformation).\n- Score the original story against each INVEST criterion (1-5 scale), considering all provided details accurately.\n- Identify specific weaknesses in the original story.\n- Create an improved version addressing those weaknesses, incorporating the aspects to enhance and additional context provided.\n- If the aspects to enhance or additional context indicate \"No specific aspects provided.\" or \"No additional context provided.\", perform a general refinement of the user story based on the INVEST criteria, focusing on common areas of improvement such as clarity, testability, and estimability.\n- Re-score each INVEST criterion for the improved user story (1-5 scale).\n- Calculate the improved INVEST score by summing the improved scores.\n- Generate a detailed refinement summary comparing the two versions.").toList

/-- `HumanMessage` f-string, fragment before `{user_story}`. -/
def humG1 : List Char := ("\n            # User Story: ").toList

/-- Fragment between `{user_story}` and `{aspects_to_enhance}`. -/
def humG2 : List Char :=
  ("\n\n            ## Refinement Guidance\n\n            ### Aspects of the user story to enhance:\n            ").toList

/-- Fragment between `{aspects_to_enhance}` and `{additional_context}`. -/
def humG3 : List Char :=
  ("\n\n            ### Additional information or context to consider:\n            ").toList

/-- Fragment between `{additional_context}` and the first `{input_score}`. -/
def humG4 : List Char :=
  ("\n\n            ## Task Overview\n\n            Perform a complete INVEST analysis on the provided user story with these steps:\n\n            ### Step 1: Analyze the Original User Story\n            - Extract or identify all components (Title, Description, AcceptanceCriteria, AdditionalInformation).\n            - Score each INVEST criterion (1-5 scale) for the ORIGINAL story AS IS, using all provided details (e.g., evaluate existing acceptance criteria accurately).\n            - The user has provided an input score of ").toList

/-- Fragment between the first and the second `{input_score}`. -/
def humG5 : List Char :=
  ("/30 for the original story. Use this as the baseline for comparison, but still provide your own scoring for each criterion based on your analysis.\n\n            ### Step 2: Create an Improved Version\n            - Generate an improved user story (Title, Description, AcceptanceCriteria, AdditionalInformation) addressing each weakness.\n            - Consider the aspects to enhance and additional context provided to guide the refinement.\n            - Re-score each INVEST criterion for the IMPROVED version (1-5 scale).\n            - Calculate the new total INVEST score for the improved version by summing the improved scores.\n\n            ### Step 3: Generate Analysis Output\n            - Include both original and improved user story components.\n            - For each INVEST criterion, provide the original score, the improved score, an explanation of the original score, and specific recommendations for improvement.\n            - Ensure explanations reflect the actual content (e.g., don’t claim missing acceptance criteria if they’re present).\n\n            ### Step 4: Create a Dynamic Refinement Summary\n            - List specific improvements as bullet points (using '*' on new lines).\n            - Include concrete examples of changes between versions.\n            - End with \"INVEST Score improved from ").toList

/-- Fragment between the second and the third `{input_score}` (the response
schema; `\x7b\x7d` stand for the literal braces produced by the `{{` / `}}`
escapes of the source f-string). -/
def humG6 : List Char :=
  ("/30 to Y/30\", where Y is the total improved score.\n\n            ## Response Format:\n\n            Return a structured JSON:\n\n            \x7b\n              \"OriginalUserStory\": \x7b\n                \"Title\": \"string\",\n                \"Description\": \"string\",\n                \"AcceptanceCriteria\": [\"string\", ...],\n                \"AdditionalInformation\": \"string\"\n              \x7d,\n              \"ImprovedUserStory\": \x7b\n                \"Title\": \"string\",\n                \"Description\": \"string\",\n                \"AcceptanceCriteria\": [\"string\", ...],\n                \"AdditionalInformation\": \"string\"\n              \x7d,\n              \"Independent\": \x7b\n                \"score\": number,\n                \"improved_score\": number,\n                \"explanation\": \"string\",\n                \"recommendation\": \"string\"\n              \x7d,\n              \"Negotiable\": \x7b\n                \"score\": number,\n                \"improved_score\": number,\n                \"explanation\": \"string\",\n                \"recommendation\": \"string\"\n              \x7d,\n              \"Valuable\": \x7b\n                \"score\": number,\n                \"improved_score\": number,\n                \"explanation\": \"string\",\n                \"recommendation\": \"string\"\n              \x7d,\n              \"Estimable\": \x7b\n                \"score\": number,\n                \"improved_score\": number,\n                \"explanation\": \"string\",\n                \"recommendation\": \"string\"\n              \x7d,\n              \"Small\": \x7b\n                \"score\": number,\n                \"improved_score\": number,\n                \"explanation\": \"string\",\n                \"recommendation\": \"string\"\n              \x7d,\n              \"Testable\": \x7b\n                \"score\": number,\n                \"improved_score\": number,\n                \"explanation\": \"string\",\n                \"recommendation\": \"string\"\n              \x7d,\n              \"overall\": \x7b\n                \"input_score\": number,\n                \"improved_score\": number,\n                \"summary\": \"string\",\n                \"refinement_summary\": \"string with '*' bullets on new lines\"\n              \x7d\n            \x7d\n\n            IMPORTANT:\n            - Return ONLY raw JSON without markdown or backticks.\n            - Ensure scores are integers (1-5), overall scores sum correctly (max 30).\n            - Use the provided input_score (").toList

/-- Fragment after the third `{input_score}`. -/
def humG7 : List Char :=
  ("/30) as the overall.input_score in the response.\n            - Use simple '*' bullets on new lines in refinement_summary.\n            - Accurately reflect provided acceptance criteria in scoring.\n            ").toList

/-- The `HumanMessage` content of the guided prompt (src/ReRefine.py
lines 54–157). -/
def humanTextG (storyTxt aspects ctx : List Char) (inputScore : Int) :
    List Char :=
  humG1 ++ storyTxt ++ humG2 ++ aspects ++ humG3 ++ ctx ++ humG4 ++
    intChars inputScore ++ humG5 ++ intChars inputScore ++ humG6 ++
    intChars inputScore ++ humG7

/-- `create_analysis_prompt` of the guided variant: the two role-tagged
message blocks sent verbatim to the model. -/
def createAnalysisPromptG (us : JVal) (aspects ctx : List Char)
    (inputScore : Int) : List (String × List Char) :=
  [("system", systemTextG),
   ("human", humanTextG (userStoryText us) aspects ctx inputScore)]

/-! ### Supporting lemmas: section default-filling -/

theorem ensure_preserve (f : String → JVal) (ks : List String) :
    ∀ d k v, dget d k = some v → dget (ensureList f d ks) k = some v := by
  induction ks with
  | nil => intro d k v h; simpa [ensureList] using h
  | cons k' ks ih =>
    intro d k v h
    rw [ensureList]
    by_cases hp : (dget d k').isSome
    · simp [hp]
      exact ih d k v h
    · simp [hp]
      apply ih
      by_cases hk : k' = k
      · subst hk
        rw [h] at hp
        simp at hp
      · rwa [dget_dset_ne d k' k _ hk]

theorem ensure_mem (f : String → JVal) (ks : List String) :
    ∀ d k, k ∈ ks → (dget (ensureList f d ks) k).isSome := by
  induction ks with
  | nil => intro d k h; simp at h
  | cons k' ks ih =>
    intro d k h
    rw [ensureList]
    rcases List.mem_cons.mp h with h | h
    · subst h
      by_cases hp : (dget d k).isSome
      · simp [hp]
        obtain ⟨v, hv⟩ := Option.isSome_iff_exists.mp hp
        rw [ensure_preserve f ks _ k v hv]
        simp
      · simp [hp]
        rw [ensure_preserve f ks _ k (f k) (dget_dset_self _ k (f k))]
        simp
    · by_cases hp : (dget d k').isSome
      · simp [hp]
        exact ih _ k h
      · simp [hp]
        exact ih _ k h

theorem ensure_absent (f : String → JVal) (ks : List String) :
    ∀ d k, dget d k = none → k ∈ ks →
      dget (ensureList f d ks) k = some (f k) := by
  induction ks with
  | nil => intro d k _ h; simp at h
  | cons k' ks ih =>
    intro d k hnone h
    rw [ensureList]
    rcases List.mem_cons.mp h with h | h
    · subst h
      simp [hnone]
      exact ensure_preserve f ks _ k (f k) (dget_dset_self _ k (f k))
    · by_cases hk : k' = k
      · subst hk
        simp [hnone]
        exact ensure_preserve f ks _ k' (f k') (dget_dset_self _ k' (f k'))
      · by_cases hp : (dget d k').isSome
        · simp [hp]
          exact ih d k hnone h
        · simp [hp]
          apply ih _ k _ h
          rwa [dget_dset_ne d k' k _ hk]

theorem ensure_frame (f : String → JVal) (ks : List String) :
    ∀ d k, k ∉ ks → dget (ensureList f d ks) k = dget d k := by
  induction ks with
  | nil => intro d k _; simp [ensureList]
  | cons k' ks ih =>
    intro d k h
    have hk : k' ≠ k := fun he => h (he ▸ List.mem_cons_self k' ks)
    have hks : k ∉ ks := fun he => h (List.mem_cons_of_mem k' he)
    rw [ensureList]
    by_cases hp : (dget d k').isSome
    · simp [hp]
      exact ih d k hks
    · simp [hp]
      rw [ih _ k hks]
      exact dget_dset_ne d k' k _ hk

theorem ensure_id (f : String → JVal) (ks : List String) :
    ∀ d, (∀ k ∈ ks, (dget d k).isSome) → ensureList f d ks = d := by
  induction ks with
  | nil => intro d _; simp [ensureList]
  | cons k' ks ih =>
    intro d h
    rw [ensureList]
    simp [h k' (List.mem_cons_self k' ks)]
    exact ih d (fun k hk => h k (List.mem_cons_of_mem k' hk))

/-! ### Supporting lemmas: guided criterion validation -/

theorem fixField_frame (s : Dict) (k k' : String) (h : k ≠ k') :
    dget (fixField s k) k' = dget s k' := by
  unfold fixField
  split
  · exact dget_dset_ne s k k' _ h
  · split
    · exact dget_dset_ne s k k' _ h
    · exact dget_dset_ne s k k' _ h

theorem fixField_get (s : Dict) (k : String) :
    dget (fixField s k) k = some (JVal.jint
      (match dget s k with
       | none => 0
       | some v => match toNum v with
                   | none => 0
                   | some n => clamp15 n)) := by
  unfold fixField
  split
  · exact dget_dset_self s k _
  · split
    · exact dget_dset_self s k _
    · exact dget_dset_self s k _

theorem clamp15_cases (n : Int) : 1 ≤ clamp15 n ∧ clamp15 n ≤ 5 := by
  unfold clamp15
  omega

/-- The value of a guided-validated criterion field is 0 or lies in [1,5]. -/
theorem fixField_range (s : Dict) (k : String) :
    ∃ m : Int, dget (fixField s k) k = some (JVal.jint m) ∧
      (m = 0 ∨ (1 ≤ m ∧ m ≤ 5)) := by
  refine ⟨_, fixField_get s k, ?_⟩
  split
  · left; rfl
  · split
    · left; rfl
    · right; exact clamp15_cases _

theorem fixCritG_ok {d : Dict} {c : String} {d' : Dict}
    (h : fixCritG d c = Except.ok d') :
    ∃ s, dget d c = some (JVal.jobj s) ∧
      d' = dset d c (JVal.jobj (fixField (fixField s "score") "improved_score")) := by
  unfold fixCritG at h
  rcases hg : dget d c with _ | v <;> rw [hg] at h
  · simp at h
  · rcases v with _ | b | n | s | xs | s <;> simp at h
    exact ⟨s, rfl, h.symm⟩

theorem fixCritsG_frame (cs : List String) :
    ∀ d d' k, fixCritsG d cs = Except.ok d' → k ∉ cs →
      dget d' k = dget d k := by
  induction cs with
  | nil => intro d d' k h _; simp [fixCritsG] at h; subst h; rfl
  | cons c cs ih =>
    intro d d' k h hk
    rw [fixCritsG] at h
    rcases hc : fixCritG d c with e | d1 <;> rw [hc] at h
    · simp at h
    · simp at h
      have hkc : k ≠ c := fun he => hk (he ▸ List.mem_cons_self c cs)
      have hkcs : k ∉ cs := fun he => hk (List.mem_cons_of_mem c he)
      rw [ih d1 d' k h hkcs]
      obtain ⟨s, _, hd1⟩ := fixCritG_ok hc
      subst hd1
      exact dget_dset_ne d c k _ (fun he => hkc he.symm)

theorem fixCritsG_master (cs : List String) :
    ∀ d d', cs.Nodup → fixCritsG d cs = Except.ok d' →
      ∀ c ∈ cs, ∃ s, dget d c = some (JVal.jobj s) ∧
        dget d' c = some (JVal.jobj (fixField (fixField s "score") "improved_score")) := by
  induction cs with
  | nil => intro d d' _ h c hc; simp at hc
  | cons c0 cs ih =>
    intro d d' hnd h c hc
    rw [fixCritsG] at h
    rcases hc0 : fixCritG d c0 with e | d1 <;> rw [hc0] at h
    · simp at h
    · simp at h
      obtain ⟨s, hs, hd1⟩ := fixCritG_ok hc0
      rcases List.mem_cons.mp hc with he | he
      · subst he
        refine ⟨s, hs, ?_⟩
        have hnotin : c ∉ cs := (List.nodup_cons.mp hnd).1
        rw [fixCritsG_frame cs d1 d' c h hnotin]
        subst hd1
        exact dget_dset_self d c _
      · have hne : c0 ≠ c := fun hee => (List.nodup_cons.mp hnd).1 (hee ▸ he)
        obtain ⟨s', hs', hres⟩ := ih d1 d' (List.nodup_cons.mp hnd).2 h c he
        refine ⟨s', ?_, hres⟩
        rw [← hs']
        subst hd1
        exact (dget_dset_ne d c0 c _ hne).symm

/-! ### Supporting lemmas: guided overall validation -/

theorem fixOverallG_ok {is cal : Int} {d d' : Dict}
    (h : fixOverallG is cal d = Except.ok d') :
    ∃ o o' : Dict, dget d "overall" = some (JVal.jobj o) ∧
      d' = dset d "overall" (JVal.jobj o') ∧
      dget o' "improved_score" = some (JVal.jint cal) ∧
      ∃ iv : Int, dget o' "input_score" = some (JVal.jint iv) ∧
        0 ≤ iv ∧ iv ≤ 30 := by
  unfold fixOverallG at h
  split at h
  case h_2 => exact absurd h (by simp)
  case h_3 => exact absurd h (by simp)
  case h_1 o ho =>
  simp only [] at h
  split at h
  · -- no-mismatch branch: improved_score was already the recomputed sum
    rename_i hmv
    simp only [Except.ok.injEq] at h
    subst h
    refine ⟨o, _, ho, rfl, ?_, ?_⟩
    · rw [dget_dset_self, hmv]
    · refine ⟨max 0 (min 30 (overallNum o "input_score" is)), ?_, by omega, by omega⟩
      rw [dget_dset_ne _ "improved_score" "input_score" _ (by decide)]
      exact dget_dset_self _ "input_score" _
  · -- mismatch branch: improved_score is overwritten with the sum
    split at h
    case h_2 =>
      simp only [Except.ok.injEq] at h
      subst h
      refine ⟨o, _, ho, rfl, ?_, ?_⟩
      · rw [dget_dset_ne _ "refinement_summary" "improved_score" _ (by decide)]
        exact dget_dset_self _ "improved_score" _
      · refine ⟨max 0 (min 30 (overallNum o "input_score" is)), ?_, by omega, by omega⟩
        rw [dget_dset_ne _ "refinement_summary" "input_score" _ (by decide),
            dget_dset_ne _ "improved_score" "input_score" _ (by decide),
            dget_dset_ne _ "improved_score" "input_score" _ (by decide)]
        exact dget_dset_self _ "input_score" _
    case h_1 =>
      simp only [Except.ok.injEq] at h
      subst h
      refine ⟨o, _, ho, rfl, ?_, ?_⟩
      · rw [dget_dset_ne _ "refinement_summary" "improved_score" _ (by decide)]
        exact dget_dset_self _ "improved_score" _
      · refine ⟨max 0 (min 30 (overallNum o "input_score" is)), ?_, by omega, by omega⟩
        rw [dget_dset_ne _ "refinement_summary" "input_score" _ (by decide),
            dget_dset_ne _ "improved_score" "input_score" _ (by decide),
            dget_dset_ne _ "improved_score" "input_score" _ (by decide)]
        exact dget_dset_self _ "input_score" _
    case h_3 => exact absurd h (by simp)

/-! ### Supporting lemmas: baseline criterion and overall validation -/

theorem fixCritB_ok {d : Dict} {c : String} {d' : Dict}
    (h : fixCritB d c = Except.ok d') :
    ∃ s v n, dget d c = some (JVal.jobj s) ∧ dget s "score" = some v ∧
      pyToInt v = Except.ok n ∧
      d' = dset d c (JVal.jobj (dset s "score" (JVal.jint (clamp15 n)))) := by
  unfold fixCritB at h
  split at h
  case h_2 => exact absurd h (by simp)
  case h_3 => exact absurd h (by simp)
  case h_1 s hs =>
  split at h
  case h_1 => exact absurd h (by simp)
  case h_2 v hv =>
  split at h
  case h_1 => exact absurd h (by simp)
  case h_2 n hn =>
  simp only [Except.ok.injEq] at h
  exact ⟨s, v, n, hs, hv, hn, h.symm⟩

theorem fixCritsB_frame (cs : List String) :
    ∀ d d' k, fixCritsB d cs = Except.ok d' → k ∉ cs →
      dget d' k = dget d k := by
  induction cs with
  | nil => intro d d' k h _; simp [fixCritsB] at h; subst h; rfl
  | cons c cs ih =>
    intro d d' k h hk
    rw [fixCritsB] at h
    rcases hc : fixCritB d c with e | d1 <;> rw [hc] at h
    · simp at h
    · simp at h
      have hkc : k ≠ c := fun he => hk (he ▸ List.mem_cons_self c cs)
      have hkcs : k ∉ cs := fun he => hk (List.mem_cons_of_mem c he)
      rw [ih d1 d' k h hkcs]
      obtain ⟨s, v, n, _, _, _, hd1⟩ := fixCritB_ok hc
      subst hd1
      exact dget_dset_ne d c k _ (fun he => hkc he.symm)

theorem fixCritsB_master (cs : List String) :
    ∀ d d', cs.Nodup → fixCritsB d cs = Except.ok d' →
      ∀ c ∈ cs, ∃ s v n, dget d c = some (JVal.jobj s) ∧
        dget s "score" = some v ∧ pyToInt v = Except.ok n ∧
        dget d' c = some (JVal.jobj (dset s "score" (JVal.jint (clamp15 n)))) := by
  induction cs with
  | nil => intro d d' _ h c hc; simp at hc
  | cons c0 cs ih =>
    intro d d' hnd h c hc
    rw [fixCritsB] at h
    rcases hc0 : fixCritB d c0 with e | d1 <;> rw [hc0] at h
    · simp at h
    · simp at h
      obtain ⟨s, v, n, hs, hv, hn, hd1⟩ := fixCritB_ok hc0
      rcases List.mem_cons.mp hc with he | he
      · subst he
        refine ⟨s, v, n, hs, hv, hn, ?_⟩
        have hnotin : c ∉ cs := (List.nodup_cons.mp hnd).1
        rw [fixCritsB_frame cs d1 d' c h hnotin]
        subst hd1
        exact dget_dset_self d c _
      · have hne : c0 ≠ c := fun hee => (List.nodup_cons.mp hnd).1 (hee ▸ he)
        obtain ⟨s', v', n', hs', hv', hn', hres⟩ :=
          ih d1 d' (List.nodup_cons.mp hnd).2 h c he
        refine ⟨s', v', n', ?_, hv', hn', hres⟩
        rw [← hs']
        subst hd1
        exact (dget_dset_ne d c0 c _ hne).symm

theorem fixOverallB_ok {cal : Int} {d d' : Dict}
    (h : fixOverallB cal d = Except.ok d') :
    ∃ o : Dict, dget d "overall" = some (JVal.jobj o) ∧
      ∃ n : Int,
        d' = dset d "overall" (JVal.jobj
          (dset (dset o "score" (JVal.jint cal)) "improved_score"
            (JVal.jint (min 30 n)))) := by
  unfold fixOverallB at h
  split at h
  case h_2 => exact absurd h (by simp)
  case h_3 => exact absurd h (by simp)
  case h_1 o ho =>
  simp only [] at h
  split at h
  case h_1 => exact absurd h (by simp)
  case h_2 n hn =>
  simp only [Except.ok.injEq] at h
  exact ⟨o, ho, n, h.symm⟩

/-! ### Supporting lemmas: whole-normalizer structure -/

theorem fixCritsG_isSome (cs : List String) :
    ∀ d d' k, fixCritsG d cs = Except.ok d' → (dget d k).isSome →
      (dget d' k).isSome := by
  induction cs with
  | nil => intro d d' k h hk; simp [fixCritsG] at h; subst h; exact hk
  | cons c cs ih =>
    intro d d' k h hk
    rw [fixCritsG] at h
    rcases hc : fixCritG d c with e | d1 <;> rw [hc] at h
    · simp at h
    · simp at h
      obtain ⟨s, _, hd1⟩ := fixCritG_ok hc
      refine ih d1 d' k h ?_
      subst hd1
      exact isSome_dget_dset d c k _ hk

theorem fixCritsB_isSome (cs : List String) :
    ∀ d d' k, fixCritsB d cs = Except.ok d' → (dget d k).isSome →
      (dget d' k).isSome := by
  induction cs with
  | nil => intro d d' k h hk; simp [fixCritsB] at h; subst h; exact hk
  | cons c cs ih =>
    intro d d' k h hk
    rw [fixCritsB] at h
    rcases hc : fixCritB d c with e | d1 <;> rw [hc] at h
    · simp at h
    · simp at h
      obtain ⟨s, v, n, _, _, _, hd1⟩ := fixCritB_ok hc
      refine ih d1 d' k h ?_
      subst hd1
      exact isSome_dget_dset d c k _ hk

theorem analyzeCoreG_split {is : Int} {j : JVal} {r : Dict}
    (h : analyzeCoreG is j = Except.ok r) :
    ∃ d d2 : Dict, j = JVal.jobj d ∧
      fixCritsG (ensureList (sectionDefaultG is) d requiredSections) critNames
        = Except.ok d2 ∧
      fixOverallG is (sumImp d2) d2 = Except.ok r := by
  unfold analyzeCoreG at h
  split at h
  case h_2 => exact absurd h (by simp)
  case h_1 d =>
  simp only [] at h
  revert h
  generalize hq :
    fixCritsG (ensureList (sectionDefaultG is) d requiredSections) critNames = q
  intro h
  cases q with
  | error e => simp at h
  | ok d2 => exact ⟨d, d2, rfl, hq, h⟩

theorem analyzeCoreB_split {j : JVal} {r : Dict}
    (h : analyzeCoreB j = Except.ok r) :
    ∃ d d2 : Dict, j = JVal.jobj d ∧
      fixCritsB (ensureList sectionDefaultB d requiredSections) critNames
        = Except.ok d2 ∧
      fixOverallB (sumScore d2) d2 = Except.ok r := by
  unfold analyzeCoreB at h
  split at h
  case h_2 => exact absurd h (by simp)
  case h_1 d =>
  simp only [] at h
  revert h
  generalize hq :
    fixCritsB (ensureList sectionDefaultB d requiredSections) critNames = q
  intro h
  cases q with
  | error e => simp at h
  | ok d2 => exact ⟨d, d2, rfl, hq, h⟩

theorem getImp_frame (d : Dict) (k c : String) (v : JVal) (h : k ≠ c) :
    getImp (dset d k v) c = getImp d c := by
  unfold getImp
  rw [dget_dset_ne d k c v h]

theorem getScore_frame (d : Dict) (k c : String) (v : JVal) (h : k ≠ c) :
    getScore (dset d k v) c = getScore d c := by
  unfold getScore
  rw [dget_dset_ne d k c v h]

/-- Full structural description of a successful guided normalization: every
criterion carries integer `score` and `improved_score` in `{0} ∪ [1,5]`,
and the overall section carries `improved_score` equal to the recomputed
sum and a clamped `input_score`. -/
theorem analyzeCoreG_struct {is : Int} {j : JVal} {r : Dict}
    (h : analyzeCoreG is j = Except.ok r) :
    (∀ c ∈ critNames, ∃ s : Dict, dget r c = some (JVal.jobj s) ∧
      (∃ m : Int, dget s "improved_score" = some (JVal.jint m) ∧
        (m = 0 ∨ (1 ≤ m ∧ m ≤ 5)) ∧ getImp r c = m) ∧
      (∃ m2 : Int, dget s "score" = some (JVal.jint m2) ∧
        (m2 = 0 ∨ (1 ≤ m2 ∧ m2 ≤ 5)))) ∧
    (∃ o' : Dict, dget r "overall" = some (JVal.jobj o') ∧
      dget o' "improved_score" = some (JVal.jint (sumImp r)) ∧
      ∃ iv : Int, dget o' "input_score" = some (JVal.jint iv) ∧
        0 ≤ iv ∧ iv ≤ 30) := by
  obtain ⟨d, d2, hj, hcrit, hov⟩ := analyzeCoreG_split h
  obtain ⟨o, o', ho, hr, himp, hiv⟩ := fixOverallG_ok hov
  subst hr
  have hsum : sumImp (dset d2 "overall" (JVal.jobj o')) = sumImp d2 := by
    have e1 := getImp_frame d2 "overall" "Independent" (JVal.jobj o') (by decide)
    have e2 := getImp_frame d2 "overall" "Negotiable" (JVal.jobj o') (by decide)
    have e3 := getImp_frame d2 "overall" "Valuable" (JVal.jobj o') (by decide)
    have e4 := getImp_frame d2 "overall" "Estimable" (JVal.jobj o') (by decide)
    have e5 := getImp_frame d2 "overall" "Small" (JVal.jobj o') (by decide)
    have e6 := getImp_frame d2 "overall" "Testable" (JVal.jobj o') (by decide)
    simp [sumImp, critNames, e1, e2, e3, e4, e5, e6]
  constructor
  · intro c hc
    have hne : ("overall" : String) ≠ c := by
      simp [critNames] at hc
      rcases hc with rfl | rfl | rfl | rfl | rfl | rfl <;> decide
    have hfr : dget (dset d2 "overall" (JVal.jobj o')) c = dget d2 c :=
      dget_dset_ne d2 "overall" c _ hne
    obtain ⟨s0, hs0, hd2c⟩ :=
      fixCritsG_master critNames _ d2 (by decide) hcrit c hc
    refine ⟨fixField (fixField s0 "score") "improved_score", by rw [hfr, hd2c], ?_, ?_⟩
    · obtain ⟨m, hm, hmr⟩ := fixField_range (fixField s0 "score") "improved_score"
      refine ⟨m, hm, hmr, ?_⟩
      unfold getImp
      rw [hfr, hd2c]
      simp [hm]
    · obtain ⟨m2, hm2, hm2r⟩ := fixField_range s0 "score"
      refine ⟨m2, ?_, hm2r⟩
      rw [fixField_frame (fixField s0 "score") "improved_score" "score" (by decide)]
      exact hm2
  · exact ⟨o', dget_dset_self d2 "overall" _, by rw [hsum]; exact himp, hiv⟩

/-- Full structural description of a successful baseline normalization:
every criterion carries an integer `score` in [1,5], `overall.score` equals
the recomputed sum, and `overall.improved_score` is only clamped from
above. -/
theorem analyzeCoreB_struct {j : JVal} {r : Dict}
    (h : analyzeCoreB j = Except.ok r) :
    (∀ c ∈ critNames, ∃ s : Dict, dget r c = some (JVal.jobj s) ∧
      ∃ m : Int, dget s "score" = some (JVal.jint m) ∧
        (1 ≤ m ∧ m ≤ 5) ∧ getScore r c = m) ∧
    (∃ o' : Dict, dget r "overall" = some (JVal.jobj o') ∧
      dget o' "score" = some (JVal.jint (sumScore r)) ∧
      ∃ n : Int, dget o' "improved_score" = some (JVal.jint (min 30 n))) := by
  obtain ⟨d, d2, hj, hcrit, hov⟩ := analyzeCoreB_split h
  obtain ⟨o, ho, n, hr⟩ := fixOverallB_ok hov
  subst hr
  have hsum : sumScore (dset d2 "overall" (JVal.jobj
      (dset (dset o "score" (JVal.jint (sumScore d2))) "improved_score"
        (JVal.jint (min 30 n))))) = sumScore d2 := by
    set w := JVal.jobj (dset (dset o "score" (JVal.jint (sumScore d2)))
      "improved_score" (JVal.jint (min 30 n))) with hw
    have e1 := getScore_frame d2 "overall" "Independent" w (by decide)
    have e2 := getScore_frame d2 "overall" "Negotiable" w (by decide)
    have e3 := getScore_frame d2 "overall" "Valuable" w (by decide)
    have e4 := getScore_frame d2 "overall" "Estimable" w (by decide)
    have e5 := getScore_frame d2 "overall" "Small" w (by decide)
    have e6 := getScore_frame d2 "overall" "Testable" w (by decide)
    simp [sumScore, critNames, e1, e2, e3, e4, e5, e6]
  constructor
  · intro c hc
    have hne : ("overall" : String) ≠ c := by
      simp [critNames] at hc
      rcases hc with rfl | rfl | rfl | rfl | rfl | rfl <;> decide
    have hfr := dget_dset_ne d2 "overall" c
      (JVal.jobj (dset (dset o "score" (JVal.jint (sumScore d2)))
        "improved_score" (JVal.jint (min 30 n)))) hne
    obtain ⟨s0, v, nn, hs0, hv, hnn, hd2c⟩ :=
      fixCritsB_master critNames _ d2 (by decide) hcrit c hc
    refine ⟨dset s0 "score" (JVal.jint (clamp15 nn)), by rw [hfr, hd2c],
      clamp15 nn, dget_dset_self s0 "score" _, clamp15_cases nn, ?_⟩
    unfold getScore
    rw [hfr, hd2c]
    simp [dget_dset_self s0 "score" (JVal.jint (clamp15 nn))]
  · refine ⟨_, dget_dset_self d2 "overall" _, ?_, n, dget_dset_self _ "improved_score" _⟩
    rw [dget_dset_ne _ "improved_score" "score" _ (by decide),
        dget_dset_self o "score" _, hsum]

/-- Every successful guided normalization returns all nine required
sections. -/
theorem analyzeCoreG_sections {is : Int} {j : JVal} {r : Dict}
    (h : analyzeCoreG is j = Except.ok r) :
    ∀ k ∈ requiredSections, (dget r k).isSome := by
  obtain ⟨d, d2, hj, hcrit, hov⟩ := analyzeCoreG_split h
  obtain ⟨o, o', ho, hr, _, _⟩ := fixOverallG_ok hov
  subst hr
  intro k hk
  apply isSome_dget_dset
  apply fixCritsG_isSome critNames _ d2 k hcrit
  exact ensure_mem _ requiredSections d k hk

/-- Every successful baseline normalization returns all nine required
sections. -/
theorem analyzeCoreB_sections {j : JVal} {r : Dict}
    (h : analyzeCoreB j = Except.ok r) :
    ∀ k ∈ requiredSections, (dget r k).isSome := by
  obtain ⟨d, d2, hj, hcrit, hov⟩ := analyzeCoreB_split h
  obtain ⟨o, ho, n, hr⟩ := fixOverallB_ok hov
  subst hr
  intro k hk
  apply isSome_dget_dset
  apply fixCritsB_isSome critNames _ d2 k hcrit
  exact ensure_mem _ requiredSections d k hk

/-- The guided Error Result also carries all nine required sections. -/
theorem errorDictG_sections (is : Int) (msg : List Char) :
    ∀ k ∈ requiredSections, (dget (errorDictG is msg) k).isSome := by
  intro k hk
  simp [requiredSections] at hk
  rcases hk with rfl | rfl | rfl | rfl | rfl | rfl | rfl | rfl | rfl <;>
    simp [errorDictG, dget]

/-- The baseline Error Result also carries all nine required sections. -/
theorem errorDictB_sections (msg : List Char) :
    ∀ k ∈ requiredSections, (dget (errorDictB msg) k).isSome := by
  intro k hk
  simp [requiredSections] at hk
  rcases hk with rfl | rfl | rfl | rfl | rfl | rfl | rfl | rfl | rfl <;>
    simp [errorDictB, dget]

/-- The guided Testable section produced for a response that omitted it:
the injected default `{score: 0, improved_score: 0, ...}` is then clamped
by `max(1, min(5, int(0))) = 1` in both score fields. -/
def testableFixedG : Dict :=
  [("score", JVal.jint 1), ("improved_score", JVal.jint 1),
   ("explanation", JVal.jstr []), ("recommendation", JVal.jstr [])]

/-- The baseline Testable section produced for a response that omitted it. -/
def testableFixedB : Dict :=
  [("score", JVal.jint 1), ("explanation", JVal.jstr []),
   ("recommendation", JVal.jstr [])]

theorem analyzeCoreG_testable_default {is : Int} {d r : Dict}
    (hmiss : dget d "Testable" = none)
    (h : analyzeCoreG is (JVal.jobj d) = Except.ok r) :
    dget r "Testable" = some (JVal.jobj testableFixedG) := by
  obtain ⟨d0, d2, hj, hcrit, hov⟩ := analyzeCoreG_split h
  injection hj with hd
  subst hd
  obtain ⟨o, o', ho, hr, _, _⟩ := fixOverallG_ok hov
  subst hr
  have hd1 : dget (ensureList (sectionDefaultG is) d requiredSections) "Testable"
      = some (sectionDefaultG is "Testable") :=
    ensure_absent _ requiredSections d "Testable" hmiss (by decide)
  obtain ⟨s0, hs0, hd2⟩ :=
    fixCritsG_master critNames _ d2 (by decide) hcrit "Testable" (by decide)
  rw [hd1] at hs0
  have hs0' : s0 = critDefaultG := by
    simp [sectionDefaultG] at hs0
    exact hs0.symm
  subst hs0'
  rw [dget_dset_ne d2 "overall" "Testable" _ (by decide), hd2]
  rfl

theorem analyzeCoreB_testable_default {d r : Dict}
    (hmiss : dget d "Testable" = none)
    (h : analyzeCoreB (JVal.jobj d) = Except.ok r) :
    dget r "Testable" = some (JVal.jobj testableFixedB) := by
  obtain ⟨d0, d2, hj, hcrit, hov⟩ := analyzeCoreB_split h
  injection hj with hd
  subst hd
  obtain ⟨o, ho, n, hr⟩ := fixOverallB_ok hov
  subst hr
  have hd1 : dget (ensureList sectionDefaultB d requiredSections) "Testable"
      = some (sectionDefaultB "Testable") :=
    ensure_absent _ requiredSections d "Testable" hmiss (by decide)
  obtain ⟨s0, v, nn, hs0, hv, hnn, hd2⟩ :=
    fixCritsB_master critNames _ d2 (by decide) hcrit "Testable" (by decide)
  rw [hd1] at hs0
  have hs0' : s0 = critDefaultB := by
    simp [sectionDefaultB] at hs0
    exact hs0.symm
  subst hs0'
  have hv' : v = JVal.jint 0 := by
    rw [show dget critDefaultB "score" = some (JVal.jint 0) from rfl] at hv
    exact (Option.some.inj hv).symm
  subst hv'
  have hnn' : nn = 0 := by
    simp [pyToInt] at hnn
    exact hnn.symm
  subst hnn'
  rw [dget_dset_ne d2 "overall" "Testable" _ (by decide), hd2]
  rfl

/-! ### Supporting lemmas: sanitizer -/

theorem escClean_keeps (l : List Char) (h : ∀ c ∈ l, c ≠ '\n' ∧ c ≠ '\t' ∧ c ≠ '\r') :
    escClean l = l := by
  induction l with
  | nil => rfl
  | cons c t ih =>
    obtain ⟨h1, h2, h3⟩ := h c (List.mem_cons_self c t)
    simp [escClean, h1, h2, h3]
    exact ih (fun c hc => h c (List.mem_cons_of_mem _ hc))

theorem escClean_no_newline (l : List Char) : '\n' ∉ escClean l := by
  induction l with
  | nil => simp [escClean]
  | cons c t ih =>
    simp only [escClean, List.mem_append]
    intro hmem
    rcases hmem with hm | hm
    · split_ifs at hm with h1 h2 h3
      · simp at hm
      · simp at hm
      · simp at hm
      · simp at hm
        exact h1 hm.symm
    · exact ih hm

theorem subLits_noquote_append (pre : List Char) (rest : List Char)
    (h : '"' ∉ pre) : subLits (pre ++ rest) = pre ++ subLits rest := by
  induction pre with
  | nil => rfl
  | cons c t ih =>
    have hc : c ≠ '"' := fun he => h (he ▸ List.mem_cons_self c t)
    have ht : '"' ∉ t := fun he => h (List.mem_cons_of_mem c he)
    simp only [List.cons_append]
    rw [subLits]
    simp [hc, ih ht]

theorem subLits_lit (content suf : List Char)
    (h : matchLit (content ++ '"' :: suf) = some (content, suf)) :
    subLits ('"' :: content ++ '"' :: suf) =
      '"' :: escClean content ++ '"' :: subLits suf := by
  show subLits ('"' :: (content ++ '"' :: suf)) = _
  rw [subLits, if_pos rfl]
  split
  · rename_i v r heq
    rw [h] at heq
    simp only [Option.some.injEq, Prod.mk.injEq] at heq
    obtain ⟨hv, hr⟩ := heq
    subst hv
    subst hr
    simp
  · rename_i heq
    rw [h] at heq
    exact absurd heq (by simp)

theorem removeCtl_keeps (l : List Char) (h : ∀ c ∈ l, isRemCtl c = false) :
    removeCtl l = l := by
  unfold removeCtl
  rw [List.filter_eq_self]
  intro a ha
  simp [h a ha]

theorem subLits_id (l : List Char)
    (h : ∀ c ∈ l, c ≠ '\n' ∧ c ≠ '\t' ∧ c ≠ '\r') : subLits l = l := by
  induction l using subLits.induct with
  | case1 => rw [subLits]
  | case2 t v r hm ih =>
    have hd := matchLit_decomp t v r hm
    subst hd
    rw [subLits, if_pos rfl]
    split
    · rename_i v' r' heq
      rw [hm] at heq
      simp only [Option.some.injEq, Prod.mk.injEq] at heq
      obtain ⟨hv, hr⟩ := heq
      subst hv
      subst hr
      simp
      have h1 : escClean v = v := by
        apply escClean_keeps
        intro c hc2
        exact h c (List.mem_cons_of_mem _ (List.mem_append.mpr (Or.inl hc2)))
      have h2 : subLits r = r := by
        apply ih
        intro c hc2
        exact h c (List.mem_cons_of_mem _
          (List.mem_append.mpr (Or.inr (List.mem_cons_of_mem _ hc2))))
      rw [h1, h2]
    · rename_i heq
      rw [hm] at heq
      exact absurd heq (by simp)
  | case3 t hm ih =>
    rw [subLits, if_pos rfl]
    split
    · rename_i v' r' heq
      rw [hm] at heq
      exact absurd heq (by simp)
    · exact congrArg _ (ih (fun c hc2 => h c (List.mem_cons_of_mem _ hc2)))
  | case4 c t hc ih =>
    rw [subLits]
    simp [hc]
    exact ih (fun c hc2 => h c (List.mem_cons_of_mem _ hc2))

/-- On text with no removable control characters and no raw newline / tab /
carriage return, `sanitize_json_string` is the identity. -/
theorem sanitize_id (l : List Char)
    (hctl : ∀ c ∈ l, isRemCtl c = false)
    (hesc : ∀ c ∈ l, c ≠ '\n' ∧ c ≠ '\t' ∧ c ≠ '\r') : sanitize l = l := by
  unfold sanitize
  rw [removeCtl_keeps l hctl]
  exact subLits_id l hesc

/-! ### Supporting lemmas: the score-sentence substitution -/

/-- A nonempty all-digit character run (what `\d+` consumes). -/
def dsOK (ds : List Char) : Prop := ds ≠ [] ∧ ∀ c ∈ ds, c.isDigit = true

/-- One concrete textual instance of the score pattern. -/
def instLine (ds1 ds2 : List Char) : List Char :=
  invPat1 ++ ds1 ++ invPat2 ++ ds2 ++ invPat3

theorem dropPre_append (p rest : List Char) : dropPre p (p ++ rest) = some rest := by
  induction p with
  | nil => rfl
  | cons c t ih => simp [dropPre, ih]

theorem digitRun_append (ds : List Char) (hd : ∀ c ∈ ds, c.isDigit = true)
    (c : Char) (hc : c.isDigit = false) (rest : List Char) :
    digitRun (ds ++ c :: rest) = ds.length := by
  induction ds with
  | nil => simp [digitRun, hc]
  | cons d t ih =>
    simp [digitRun, hd d (List.mem_cons_self d t)]
    exact ih (fun c hc2 => hd c (List.mem_cons_of_mem _ hc2))

theorem digits1_append (ds : List Char) (h : dsOK ds) (c : Char)
    (hc : c.isDigit = false) (rest : List Char) :
    digits1 (ds ++ c :: rest) = some (c :: rest) := by
  unfold digits1
  rw [digitRun_append ds h.2 c hc rest]
  have hne : ds.length ≠ 0 := fun he => h.1 (List.length_eq_zero.mp he)
  simp [hne]

theorem matchInvest_instance (ds1 ds2 : List Char) (h1 : dsOK ds1)
    (h2 : dsOK ds2) (tail : List Char) :
    matchInvest (instLine ds1 ds2 ++ tail) = some tail := by
  have e1 : instLine ds1 ds2 ++ tail =
      invPat1 ++ (ds1 ++ ('/' :: ("30 to ".toList ++
        (ds2 ++ ('/' :: ("30".toList ++ tail)))))) := by
    simp [instLine, invPat1, invPat2, invPat3]
  rw [e1]
  unfold matchInvest
  rw [dropPre_append invPat1 _]
  simp only [Option.bind_eq_bind, Option.some_bind]
  rw [digits1_append ds1 h1 '/' (by decide) _]
  simp only [Option.some_bind]
  rw [show ('/' : Char) :: ("30 to ".toList ++ (ds2 ++ ('/' :: ("30".toList ++ tail))))
        = invPat2 ++ (ds2 ++ ('/' :: ("30".toList ++ tail))) from rfl]
  rw [dropPre_append invPat2 _]
  simp only [Option.some_bind]
  rw [digits1_append ds2 h2 '/' (by decide) _]
  simp only [Option.some_bind]
  rw [show ('/' : Char) :: ("30".toList ++ tail) = invPat3 ++ tail from rfl]
  exact dropPre_append invPat3 tail

theorem matchInvest_not_I {c : Char} (hc : c ≠ 'I') (t : List Char) :
    matchInvest (c :: t) = none := by
  unfold matchInvest
  rw [show invPat1 = 'I' :: "NVEST Score improved from ".toList from rfl]
  simp [dropPre, hc]

theorem subInvest_head_match {repl l rest : List Char}
    (h : matchInvest l = some rest) :
    subInvest repl l = repl ++ subInvest repl rest := by
  cases l with
  | nil => simp [matchInvest, dropPre, invPat1] at h
  | cons c t =>
    rw [subInvest]
    split
    · rename_i rest' heq
      rw [h] at heq
      rw [Option.some.inj heq]
    · rename_i heq
      rw [h] at heq
      exact absurd heq (by simp)

theorem subInvest_no_I (repl l : List Char) (h : 'I' ∉ l) :
    subInvest repl l = l := by
  induction l with
  | nil => rw [subInvest]
  | cons c t ih =>
    have hc : c ≠ 'I' := fun he => h (he ▸ List.mem_cons_self c t)
    have ht : 'I' ∉ t := fun he => h (List.mem_cons_of_mem c he)
    rw [subInvest]
    split
    · rename_i rest heq
      rw [matchInvest_not_I hc t] at heq
      exact absurd heq (by simp)
    · exact congrArg _ (ih ht)

/-- Substituting into text that ends with a pattern instance and contains no
`'I'` before it replaces exactly that trailing instance. -/
theorem subInvest_tail_inst (repl a ds1 ds2 : List Char) (ha : 'I' ∉ a)
    (h1 : dsOK ds1) (h2 : dsOK ds2) :
    subInvest repl (a ++ instLine ds1 ds2) = a ++ repl := by
  induction a with
  | nil =>
    have hm : matchInvest (instLine ds1 ds2) = some [] := by
      have := matchInvest_instance ds1 ds2 h1 h2 []
      simpa using this
    rw [List.nil_append, subInvest_head_match hm, subInvest]
    simp
  | cons c a' ih =>
    have hc : c ≠ 'I' := fun he => ha (he ▸ List.mem_cons_self c a')
    have ha' : 'I' ∉ a' := fun he => ha (List.mem_cons_of_mem c he)
    simp only [List.cons_append]
    rw [subInvest]
    split
    · rename_i rest heq
      rw [matchInvest_not_I hc _] at heq
      exact absurd heq (by simp)
    · simp [ih ha']

/-! ### Round-trip: schema-conformant responses are fixed points -/

/-- A criterion section the guided variant's validation leaves unchanged:
integer `score` and `improved_score` already in [1, 5]. -/
def critOKG (v : JVal) : Bool :=
  match v with
  | JVal.jobj s =>
    (match dget s "score" with
     | some (JVal.jint n) => decide (1 ≤ n) && decide (n ≤ 5)
     | _ => false) &&
    (match dget s "improved_score" with
     | some (JVal.jint n) => decide (1 ≤ n) && decide (n ≤ 5)
     | _ => false)
  | _ => false

/-- A criterion section the baseline variant's validation leaves unchanged. -/
def critOKB (v : JVal) : Bool :=
  match v with
  | JVal.jobj s =>
    match dget s "score" with
    | some (JVal.jint n) => decide (1 ≤ n) && decide (n ≤ 5)
    | _ => false
  | _ => false

/-- A well-formed, schema-conformant, internally consistent guided response:
all nine sections present, criterion scores in [1,5], `overall.input_score`
in [0,30] and `overall.improved_score` equal to the per-criterion sum. -/
def conformG (d : Dict) : Bool :=
  (requiredSections.all fun k => (dget d k).isSome) &&
  (critNames.all fun c =>
    match dget d c with
    | some v => critOKG v
    | none => false) &&
  (match dget d "overall" with
   | some (JVal.jobj o) =>
     (match dget o "input_score" with
      | some (JVal.jint n) => decide (0 ≤ n) && decide (n ≤ 30)
      | _ => false) &&
     (match dget o "improved_score" with
      | some (JVal.jint n) => decide (n = sumImp d)
      | _ => false)
   | _ => false)

/-- A well-formed, schema-conformant, internally consistent baseline
response: `overall.score` equal to the per-criterion sum and
`overall.improved_score` in [0,30]. -/
def conformB (d : Dict) : Bool :=
  (requiredSections.all fun k => (dget d k).isSome) &&
  (critNames.all fun c =>
    match dget d c with
    | some v => critOKB v
    | none => false) &&
  (match dget d "overall" with
   | some (JVal.jobj o) =>
     (match dget o "score" with
      | some (JVal.jint n) => decide (n = sumScore d)
      | _ => false) &&
     (match dget o "improved_score" with
      | some (JVal.jint n) => decide (0 ≤ n) && decide (n ≤ 30)
      | _ => false)
   | _ => false)

theorem fixField_id {s : Dict} {k : String} {n : Int}
    (h : dget s k = some (JVal.jint n)) (h1 : 1 ≤ n) (h5 : n ≤ 5) :
    fixField s k = s := by
  unfold fixField
  rw [h]
  simp only [toNum]
  have hc : clamp15 n = n := by unfold clamp15; omega
  rw [hc]
  exact dset_self s k _ h

theorem critOKG_fix {v : JVal} (h : critOKG v = true) :
    ∃ s, v = JVal.jobj s ∧
      fixField (fixField s "score") "improved_score" = s := by
  cases v with
  | jobj s =>
    refine ⟨s, rfl, ?_⟩
    unfold critOKG at h
    simp only [Bool.and_eq_true] at h
    obtain ⟨hs, hi⟩ := h
    rcases hgs : dget s "score" with _ | vs <;> rw [hgs] at hs
    · simp at hs
    · cases vs <;> simp at hs
      rename_i ns
      obtain ⟨h1, h5⟩ := hs
      have e1 : fixField s "score" = s := fixField_id hgs h1 h5
      rw [e1]
      rcases hgi : dget s "improved_score" with _ | vi <;> rw [hgi] at hi
      · simp at hi
      · cases vi <;> simp at hi
        rename_i ni
        obtain ⟨h1i, h5i⟩ := hi
        exact fixField_id hgi h1i h5i
  | jnull => simp [critOKG] at h
  | jbool b => simp [critOKG] at h
  | jint n => simp [critOKG] at h
  | jstr st => simp [critOKG] at h
  | jarr xs => simp [critOKG] at h

theorem fixCritsG_id (cs : List String) (d : Dict)
    (h : ∀ c ∈ cs, ∃ v, dget d c = some v ∧ critOKG v = true) :
    fixCritsG d cs = Except.ok d := by
  induction cs with
  | nil => rfl
  | cons c cs ih =>
    obtain ⟨v, hv, hok⟩ := h c (List.mem_cons_self c cs)
    obtain ⟨s, rfl, hfix⟩ := critOKG_fix hok
    have e : fixCritG d c = Except.ok d := by
      unfold fixCritG
      rw [hv]
      show Except.ok (dset d c (JVal.jobj
        (fixField (fixField s "score") "improved_score"))) = Except.ok d
      rw [hfix, dset_self d c _ hv]
    rw [fixCritsG, e]
    exact ih (fun c2 hc2 => h c2 (List.mem_cons_of_mem c hc2))

theorem critOKB_fix {v : JVal} (h : critOKB v = true) :
    ∃ s n, v = JVal.jobj s ∧ dget s "score" = some (JVal.jint n) ∧
      pyToInt (JVal.jint n) = Except.ok n ∧
      dset s "score" (JVal.jint (clamp15 n)) = s := by
  cases v with
  | jobj s =>
    unfold critOKB at h
    have h' : (match dget s "score" with
               | some (JVal.jint n) => decide (1 ≤ n) && decide (n ≤ 5)
               | _ => false) = true := h
    rcases hgs : dget s "score" with _ | vs <;> rw [hgs] at h'
    · simp at h'
    · cases vs <;> simp at h'
      rename_i ns
      obtain ⟨h1, h5⟩ := h'
      refine ⟨s, ns, rfl, hgs, rfl, ?_⟩
      have hc : clamp15 ns = ns := by unfold clamp15; omega
      rw [hc]
      exact dset_self s "score" _ hgs
  | jnull => simp [critOKB] at h
  | jbool b => simp [critOKB] at h
  | jint n => simp [critOKB] at h
  | jstr st => simp [critOKB] at h
  | jarr xs => simp [critOKB] at h

theorem fixCritsB_id (cs : List String) (d : Dict)
    (h : ∀ c ∈ cs, ∃ v, dget d c = some v ∧ critOKB v = true) :
    fixCritsB d cs = Except.ok d := by
  induction cs with
  | nil => rfl
  | cons c cs ih =>
    obtain ⟨v, hv, hok⟩ := h c (List.mem_cons_self c cs)
    obtain ⟨s, n, rfl, hsc, hpy, hfix⟩ := critOKB_fix hok
    have e : fixCritB d c = Except.ok d := by
      unfold fixCritB
      rw [hv]
      show (match dget s "score" with
            | none => Except.error (PyErr.keyError "score")
            | some v =>
              match pyToInt v with
              | Except.error e => Except.error e
              | Except.ok n => Except.ok (dset d c
                  (JVal.jobj (dset s "score" (JVal.jint (clamp15 n)))))) =
        Except.ok d
      rw [hsc]
      show Except.ok (dset d c
        (JVal.jobj (dset s "score" (JVal.jint (clamp15 n))))) = Except.ok d
      rw [hfix, dset_self d c _ hv]
    rw [fixCritsB, e]
    exact ih (fun c2 hc2 => h c2 (List.mem_cons_of_mem c hc2))

theorem critEntry_unpack {d : Dict} {c : String}
    (h : (match dget d c with
          | some v => critOKG v
          | none => false) = true) :
    ∃ v, dget d c = some v ∧ critOKG v = true := by
  rcases hg : dget d c with _ | v <;> rw [hg] at h
  · simp at h
  · exact ⟨v, rfl, h⟩

theorem critEntry_unpackB {d : Dict} {c : String}
    (h : (match dget d c with
          | some v => critOKB v
          | none => false) = true) :
    ∃ v, dget d c = some v ∧ critOKB v = true := by
  rcases hg : dget d c with _ | v <;> rw [hg] at h
  · simp at h
  · exact ⟨v, rfl, h⟩

theorem getImp_bounds {d : Dict} {c : String} {v : JVal}
    (hv : dget d c = some v) (hok : critOKG v = true) :
    1 ≤ getImp d c ∧ getImp d c ≤ 5 := by
  cases v with
  | jobj s =>
    unfold critOKG at hok
    simp only [Bool.and_eq_true] at hok
    obtain ⟨_, hi⟩ := hok
    rcases hgi : dget s "improved_score" with _ | vi <;> rw [hgi] at hi
    · simp at hi
    · cases vi <;> simp at hi
      rename_i ni
      unfold getImp
      simp only [hv, hgi]
      omega
  | jnull => simp [critOKG] at hok
  | jbool b => simp [critOKG] at hok
  | jint n => simp [critOKG] at hok
  | jstr st => simp [critOKG] at hok
  | jarr xs => simp [critOKG] at hok

theorem getScore_bounds {d : Dict} {c : String} {v : JVal}
    (hv : dget d c = some v) (hok : critOKB v = true) :
    1 ≤ getScore d c ∧ getScore d c ≤ 5 := by
  cases v with
  | jobj s =>
    unfold critOKB at hok
    have h' : (match dget s "score" with
               | some (JVal.jint n) => decide (1 ≤ n) && decide (n ≤ 5)
               | _ => false) = true := hok
    rcases hgi : dget s "score" with _ | vi <;> rw [hgi] at h'
    · simp at h'
    · cases vi <;> simp at h'
      rename_i ni
      unfold getScore
      simp only [hv, hgi]
      omega
  | jnull => simp [critOKB] at hok
  | jbool b => simp [critOKB] at hok
  | jint n => simp [critOKB] at hok
  | jstr st => simp [critOKB] at hok
  | jarr xs => simp [critOKB] at hok

theorem fixOverallG_id {is cal : Int} {d o : Dict} {ni : Int}
    (hg : dget d "overall" = some (JVal.jobj o))
    (hin : dget o "input_score" = some (JVal.jint ni))
    (hni0 : 0 ≤ ni) (hni30 : ni ≤ 30)
    (himp : dget o "improved_score" = some (JVal.jint cal))
    (hcal0 : 0 ≤ cal) (hcal30 : cal ≤ 30) :
    fixOverallG is cal d = Except.ok d := by
  have hON1 : overallNum o "input_score" is = ni := by
    unfold overallNum
    rw [hin]
    rfl
  have hmax1 : max 0 (min 30 ni) = ni := by omega
  unfold fixOverallG
  rw [hg]
  simp only []
  rw [hON1, hmax1, dset_self o "input_score" _ hin]
  have hON2 : overallNum o "improved_score" cal = cal := by
    unfold overallNum
    rw [himp]
    rfl
  have hmax2 : max 0 (min 30 cal) = cal := by omega
  rw [hON2, hmax2, dset_self o "improved_score" _ himp]
  rw [if_pos rfl, dset_self d "overall" _ hg]

theorem fixOverallB_id {cal : Int} {d o : Dict} {mi : Int}
    (hg : dget d "overall" = some (JVal.jobj o))
    (hsc : dget o "score" = some (JVal.jint cal))
    (himp : dget o "improved_score" = some (JVal.jint mi))
    (hmi30 : mi ≤ 30) :
    fixOverallB cal d = Except.ok d := by
  unfold fixOverallB
  rw [hg]
  simp only []
  rw [dset_self o "score" _ hsc, himp]
  simp only [pyToInt]
  have hmin : min 30 mi = mi := by omega
  rw [hmin, dset_self o "improved_score" _ himp, dset_self d "overall" _ hg]

/-- A schema-conformant guided response passes through normalization
unchanged. -/
theorem analyzeCoreG_id (is : Int) (d : Dict) (h : conformG d = true) :
    analyzeCoreG is (JVal.jobj d) = Except.ok d := by
  unfold conformG at h
  simp only [Bool.and_eq_true, List.all_eq_true] at h
  obtain ⟨⟨hsec, hcrit⟩, hov⟩ := h
  have e1 : ensureList (sectionDefaultG is) d requiredSections = d :=
    ensure_id _ requiredSections d (fun k hk => by
      have := hsec k hk
      simpa using this)
  have e2 : fixCritsG d critNames = Except.ok d :=
    fixCritsG_id critNames d (fun c hc => critEntry_unpack (hcrit c hc))
  have hb1 := critEntry_unpack (hcrit "Independent" (by decide))
  have hb2 := critEntry_unpack (hcrit "Negotiable" (by decide))
  have hb3 := critEntry_unpack (hcrit "Valuable" (by decide))
  have hb4 := critEntry_unpack (hcrit "Estimable" (by decide))
  have hb5 := critEntry_unpack (hcrit "Small" (by decide))
  have hb6 := critEntry_unpack (hcrit "Testable" (by decide))
  obtain ⟨v1, hv1, ho1⟩ := hb1
  obtain ⟨v2, hv2, ho2⟩ := hb2
  obtain ⟨v3, hv3, ho3⟩ := hb3
  obtain ⟨v4, hv4, ho4⟩ := hb4
  obtain ⟨v5, hv5, ho5⟩ := hb5
  obtain ⟨v6, hv6, ho6⟩ := hb6
  have g1 := getImp_bounds hv1 ho1
  have g2 := getImp_bounds hv2 ho2
  have g3 := getImp_bounds hv3 ho3
  have g4 := getImp_bounds hv4 ho4
  have g5 := getImp_bounds hv5 ho5
  have g6 := getImp_bounds hv6 ho6
  have hsumeq : sumImp d = getImp d "Independent" + (getImp d "Negotiable" +
      (getImp d "Valuable" + (getImp d "Estimable" +
      (getImp d "Small" + getImp d "Testable")))) := by
    simp [sumImp, critNames]
  have hcal0 : 0 ≤ sumImp d := by rw [hsumeq]; omega
  have hcal30 : sumImp d ≤ 30 := by rw [hsumeq]; omega
  have e3 : fixOverallG is (sumImp d) d = Except.ok d := by
    rcases hg : dget d "overall" with _ | vo <;> rw [hg] at hov
    · simp at hov
    · cases vo with
      | jobj o =>
        have hov' : ((match dget o "input_score" with
            | some (JVal.jint n) => decide (0 ≤ n) && decide (n ≤ 30)
            | _ => false) &&
           (match dget o "improved_score" with
            | some (JVal.jint n) => decide (n = sumImp d)
            | _ => false)) = true := hov
        simp only [Bool.and_eq_true] at hov'
        obtain ⟨hin, himp⟩ := hov'
        rcases hgi : dget o "input_score" with _ | vi <;> rw [hgi] at hin
        · simp at hin
        · cases vi <;> simp at hin
          rename_i ni
          rcases hgm : dget o "improved_score" with _ | vm <;> rw [hgm] at himp
          · simp at himp
          · cases vm <;> simp at himp
            rename_i nm
            subst himp
            exact fixOverallG_id hg hgi hin.1 hin.2 hgm hcal0 hcal30
      | jnull => simp at hov
      | jbool b => simp at hov
      | jint n => simp at hov
      | jstr st => simp at hov
      | jarr xs => simp at hov
  unfold analyzeCoreG
  simp only []
  rw [e1, e2]
  show fixOverallG is (sumImp d) d = Except.ok d
  exact e3

/-- A schema-conformant baseline response passes through normalization
unchanged. -/
theorem analyzeCoreB_id (d : Dict) (h : conformB d = true) :
    analyzeCoreB (JVal.jobj d) = Except.ok d := by
  unfold conformB at h
  simp only [Bool.and_eq_true, List.all_eq_true] at h
  obtain ⟨⟨hsec, hcrit⟩, hov⟩ := h
  have e1 : ensureList sectionDefaultB d requiredSections = d :=
    ensure_id _ requiredSections d (fun k hk => by
      have := hsec k hk
      simpa using this)
  have e2 : fixCritsB d critNames = Except.ok d :=
    fixCritsB_id critNames d (fun c hc => critEntry_unpackB (hcrit c hc))
  have e3 : fixOverallB (sumScore d) d = Except.ok d := by
    rcases hg : dget d "overall" with _ | vo <;> rw [hg] at hov
    · simp at hov
    · cases vo with
      | jobj o =>
        have hov' : ((match dget o "score" with
            | some (JVal.jint n) => decide (n = sumScore d)
            | _ => false) &&
           (match dget o "improved_score" with
            | some (JVal.jint n) => decide (0 ≤ n) && decide (n ≤ 30)
            | _ => false)) = true := hov
        simp only [Bool.and_eq_true] at hov'
        obtain ⟨hsc, himp⟩ := hov'
        rcases hgs : dget o "score" with _ | vs <;> rw [hgs] at hsc
        · simp at hsc
        · cases vs <;> simp at hsc
          rename_i ns
          rcases hgm : dget o "improved_score" with _ | vm <;> rw [hgm] at himp
          · simp at himp
          · cases vm <;> simp at himp
            rename_i nm
            subst hsc
            exact fixOverallB_id hg hgs hgm himp.2
      | jnull => simp at hov
      | jbool b => simp at hov
      | jint n => simp at hov
      | jstr st => simp at hov
      | jarr xs => simp at hov
  unfold analyzeCoreB
  simp only []
  rw [e1, e2]
  show fixOverallB (sumScore d) d = Except.ok d
  exact e3

/-! ### Supporting lemmas: preprocessing and the prompt text -/

theorem isPre_append (p b : List Char) : isPre p (p ++ b) = true := by
  induction p with
  | nil => rfl
  | cons c t ih => simp [isPre, ih]

theorem isSubstring_parts (p a b : List Char) :
    isSubstring p (a ++ p ++ b) = true := by
  induction a with
  | nil =>
    simp only [List.nil_append]
    cases p with
    | nil =>
      cases b with
      | nil => rfl
      | cons c t =>
        show (isPre [] (c :: t) || isSubstring [] t) = true
        simp [isPre]
    | cons q qs =>
      simp only [List.cons_append]
      rw [isSubstring]
      have := isPre_append (q :: qs) b
      simp only [List.cons_append] at this
      simp [this]
  | cons c a' ih =>
    simp only [List.cons_append]
    rw [isSubstring]
    refine (Bool.or_eq_true _ _).mpr (Or.inr ?_)
    simpa using ih

/-- What a successful guided preprocessing returns: the hint strings are
passed through, with the placeholder sentences substituted for empty
ones. -/
theorem preprocessG_ok {d : Dict} {us : JVal} {asp ctx : List Char} {sc : Int}
    (h : preprocessG (JVal.jobj d) = Except.ok (us, asp, ctx, sc)) :
    ∃ aspects ctx0 : List Char,
      strField d "aspects_to_enhance" = Except.ok aspects ∧
      strField d "additional_context" = Except.ok ctx0 ∧
      asp = (if aspects = [] then phAspects else aspects) ∧
      ctx = (if ctx0 = [] then phContext else ctx0) := by
  unfold preprocessG at h
  split at h
  case h_2 => rename_i hx; exact (hx d rfl).elim
  case h_1 =>
  rename_i d2 heq
  injection heq with hd
  subst hd
  split at h
  case h_1 => exact absurd h (by simp)
  case h_2 us' hus =>
  split at h
  case h_1 => exact absurd h (by simp)
  case h_2 =>
  split at h
  case h_1 => exact absurd h (by simp)
  case h_2 aspects ha =>
  try simp only [] at h
  split at h
  case h_1 => exact absurd h (by simp)
  case h_2 ctx0 hc =>
  try simp only [] at h
  split at h
  case h_1 => exact absurd h (by simp)
  case h_2 sv hsv =>
  simp only [Except.ok.injEq, Prod.mk.injEq] at h
  obtain ⟨hu, hasp, hctx, hsc⟩ := h
  exact ⟨aspects, ctx0, ha, hc, hasp.symm, hctx.symm⟩

/-- An absent or empty hint field preprocesses to the empty string. -/
theorem strField_empty {d : Dict} {k : String}
    (he : dget d k = none ∨ dget d k = some (JVal.jstr [])) :
    strField d k = Except.ok [] := by
  rcases he with he | he <;> (unfold strField; rw [he])

/-! ### View helpers and concrete example responses -/

/-- Read `d[k1][k2]` as an integer, when it has that shape. -/
def getInt2 (d : Dict) (k1 k2 : String) : Option Int :=
  match dget d k1 with
  | some (JVal.jobj o) =>
    match dget o k2 with
    | some (JVal.jint n) => some n
    | _ => none
  | _ => none

/-- Read `d[k1][k2]` as a string, when it has that shape. -/
def getStr2 (d : Dict) (k1 k2 : String) : Option (List Char) :=
  match dget d k1 with
  | some (JVal.jobj o) =>
    match dget o k2 with
    | some (JVal.jstr s) => some s
    | _ => none
  | _ => none

/-- Does `l` end with `suf`? -/
def endsWithL (suf l : List Char) : Bool := (dropPre suf.reverse l.reverse).isSome

/-- A fully conformant guided criterion section. -/
def critExG : Dict :=
  [("score", JVal.jint 3), ("improved_score", JVal.jint 4),
   ("explanation", JVal.jstr "e".toList), ("recommendation", JVal.jstr "r".toList)]

/-- A fully conformant guided model response. -/
def exRespG : Dict :=
  [("OriginalUserStory", userStoryDefault),
   ("ImprovedUserStory", userStoryDefault),
   ("Independent", JVal.jobj critExG), ("Negotiable", JVal.jobj critExG),
   ("Valuable", JVal.jobj critExG), ("Estimable", JVal.jobj critExG),
   ("Small", JVal.jobj critExG), ("Testable", JVal.jobj critExG),
   ("overall", JVal.jobj
     [("input_score", JVal.jint 12), ("improved_score", JVal.jint 24),
      ("summary", JVal.jstr []), ("refinement_summary", JVal.jstr [])])]

/-- A fully conformant baseline criterion section. -/
def critExB : Dict :=
  [("score", JVal.jint 3), ("explanation", JVal.jstr []),
   ("recommendation", JVal.jstr [])]

/-- A fully conformant baseline model response. -/
def exRespB : Dict :=
  [("OriginalUserStory", userStoryDefault),
   ("ImprovedUserStory", userStoryDefault),
   ("Independent", JVal.jobj critExB), ("Negotiable", JVal.jobj critExB),
   ("Valuable", JVal.jobj critExB), ("Estimable", JVal.jobj critExB),
   ("Small", JVal.jobj critExB), ("Testable", JVal.jobj critExB),
   ("overall", JVal.jobj
     [("score", JVal.jint 18), ("improved_score", JVal.jint 25),
      ("summary", JVal.jstr []), ("refinement_summary", JVal.jstr [])])]

/-- A baseline response whose reported `overall.improved_score` is negative:
`min(30, -5)` keeps it negative. -/
def exRespBneg : Dict :=
  [("OriginalUserStory", userStoryDefault),
   ("ImprovedUserStory", userStoryDefault),
   ("Independent", JVal.jobj critExB), ("Negotiable", JVal.jobj critExB),
   ("Valuable", JVal.jobj critExB), ("Estimable", JVal.jobj critExB),
   ("Small", JVal.jobj critExB), ("Testable", JVal.jobj critExB),
   ("overall", JVal.jobj
     [("score", JVal.jint 18), ("improved_score", JVal.jint (-5)),
      ("summary", JVal.jstr []), ("refinement_summary", JVal.jstr [])])]

/-- A guided criterion section already in clamped form with
`improved_score = 1`. -/
def critLowG : Dict :=
  [("score", JVal.jint 2), ("improved_score", JVal.jint 1),
   ("explanation", JVal.jstr []), ("recommendation", JVal.jstr [])]

/-- A guided response whose reported aggregate (10) disagrees with the
recomputed sum (6), parameterized by its `refinement_summary` text. -/
def mkRespC2 (s : List Char) : Dict :=
  [("OriginalUserStory", userStoryDefault),
   ("ImprovedUserStory", userStoryDefault),
   ("Independent", JVal.jobj critLowG), ("Negotiable", JVal.jobj critLowG),
   ("Valuable", JVal.jobj critLowG), ("Estimable", JVal.jobj critLowG),
   ("Small", JVal.jobj critLowG), ("Testable", JVal.jobj critLowG),
   ("overall", JVal.jobj
     [("input_score", JVal.jint 3), ("improved_score", JVal.jint 10),
      ("summary", JVal.jstr []), ("refinement_summary", JVal.jstr s)])]

/-- What the guided Normalizer returns for `mkRespC2 s`: the aggregate is
overwritten with the sum 6 and the summary passes through the `re.sub`
repair. -/
def mkOutC2 (s : List Char) : Dict :=
  [("OriginalUserStory", userStoryDefault),
   ("ImprovedUserStory", userStoryDefault),
   ("Independent", JVal.jobj critLowG), ("Negotiable", JVal.jobj critLowG),
   ("Valuable", JVal.jobj critLowG), ("Estimable", JVal.jobj critLowG),
   ("Small", JVal.jobj critLowG), ("Testable", JVal.jobj critLowG),
   ("overall", JVal.jobj
     [("input_score", JVal.jint 3), ("improved_score", JVal.jint 6),
      ("summary", JVal.jstr []),
      ("refinement_summary", JVal.jstr (fixSummary (investLine 3 6) s))])]

/-- A guided response with the `Testable` section missing; the remaining
scores are already in clamped form and the aggregate matches the recomputed
sum (five criteria at 1 plus the clamped default 1). -/
def exMissTest : Dict :=
  [("OriginalUserStory", userStoryDefault),
   ("ImprovedUserStory", userStoryDefault),
   ("Independent", JVal.jobj critLowG), ("Negotiable", JVal.jobj critLowG),
   ("Valuable", JVal.jobj critLowG), ("Estimable", JVal.jobj critLowG),
   ("Small", JVal.jobj critLowG),
   ("overall", JVal.jobj
     [("input_score", JVal.jint 6), ("improved_score", JVal.jint 6),
      ("summary", JVal.jstr []), ("refinement_summary", JVal.jstr [])])]

/-- The baseline counterpart of `exMissTest` (aggregate sum is
2·5 + 1 = 11 after the default Testable is clamped to 1). -/
def exMissTestB : Dict :=
  [("OriginalUserStory", userStoryDefault),
   ("ImprovedUserStory", userStoryDefault),
   ("Independent", JVal.jobj critExB), ("Negotiable", JVal.jobj critExB),
   ("Valuable", JVal.jobj critExB), ("Estimable", JVal.jobj critExB),
   ("Small", JVal.jobj critExB),
   ("overall", JVal.jobj
     [("score", JVal.jint 0), ("improved_score", JVal.jint 0),
      ("summary", JVal.jstr []), ("refinement_summary", JVal.jstr [])])]

/-- A baseline response whose `Independent` section lacks `score` while
`Negotiable` carries a valid 4: normalization aborts into the Error
Result instead of zeroing the missing field. -/
def cexB4 : Dict :=
  [("OriginalUserStory", userStoryDefault),
   ("ImprovedUserStory", userStoryDefault),
   ("Independent", JVal.jobj [("explanation", JVal.jstr "x".toList)]),
   ("Negotiable", JVal.jobj [("score", JVal.jint 4)]),
   ("Valuable", JVal.jobj critExB), ("Estimable", JVal.jobj critExB),
   ("Small", JVal.jobj critExB), ("Testable", JVal.jobj critExB),
   ("overall", JVal.jobj
     [("score", JVal.jint 18), ("improved_score", JVal.jint 0),
      ("summary", JVal.jstr []), ("refinement_summary", JVal.jstr [])])]

/-- The bell character 0x07, removed by the sanitizer's first pass. -/
def bellChar : Char := Char.ofNat 7

/-- A guided request envelope with no `aspects_to_enhance` /
`additional_context` keys. -/
def exEnvelope : Dict :=
  [("UserStory", JVal.jobj
     [("Title", JVal.jstr "t".toList), ("Description", JVal.jstr "d".toList),
      ("AcceptanceCriteria", JVal.jarr []),
      ("AdditionalInformation", JVal.jstr "i".toList)])]

/-- The guided mismatch repair, explicitly: when the (already in-range)
reported aggregate differs from the recomputed sum, the aggregate is
overwritten and the refinement summary passes through `fixSummary`. -/
theorem fixOverallG_mismatch {is cal : Int} {d o : Dict} {ni mi : Int}
    {cur : List Char}
    (hg : dget d "overall" = some (JVal.jobj o))
    (hin : dget o "input_score" = some (JVal.jint ni))
    (hni0 : 0 ≤ ni) (hni30 : ni ≤ 30)
    (himp : dget o "improved_score" = some (JVal.jint mi))
    (hmi0 : 0 ≤ mi) (hmi30 : mi ≤ 30) (hne : mi ≠ cal)
    (hcur : dget o "refinement_summary" = some (JVal.jstr cur)) :
    fixOverallG is cal d = Except.ok (dset d "overall" (JVal.jobj
      (dset (dset o "improved_score" (JVal.jint cal)) "refinement_summary"
        (JVal.jstr (fixSummary (investLine ni cal) cur))))) := by
  have hON1 : overallNum o "input_score" is = ni := by
    unfold overallNum
    rw [hin]
    rfl
  have hmax1 : max 0 (min 30 ni) = ni := by omega
  unfold fixOverallG
  rw [hg]
  simp only []
  rw [hON1, hmax1, dset_self o "input_score" _ hin]
  have hON2 : overallNum o "improved_score" cal = mi := by
    unfold overallNum
    rw [himp]
    rfl
  have hmax2 : max 0 (min 30 mi) = mi := by omega
  rw [hON2, hmax2, dset_self o "improved_score" _ himp]
  rw [if_neg hne]
  rw [show dget (dset o "improved_score" (JVal.jint cal)) "refinement_summary"
        = some (JVal.jstr cur) from by
      rw [dget_dset_ne _ "improved_score" "refinement_summary" _ (by decide)]
      exact hcur]

theorem fixSummary_empty (fmt : List Char) : fixSummary fmt [] = fmt := by
  have h0 : subInvest fmt [] = [] := by rw [subInvest]
  unfold fixSummary
  rw [h0]
  simp

/-- A nonempty summary without the pattern is returned unchanged: the
`re.sub` finds nothing to replace and nothing is appended. -/
theorem fixSummary_no_match (fmt cur : List Char) (h : 'I' ∉ cur)
    (hne : cur ≠ []) : fixSummary fmt cur = cur := by
  unfold fixSummary
  rw [subInvest_no_I fmt cur h]
  simp [hne]

theorem investLine_ne_nil (a b : Int) : investLine a b ≠ [] := by
  unfold investLine
  intro h
  have := congrArg List.length h
  simp at this

theorem endsWithL_append (suf a : List Char) :
    endsWithL suf (a ++ suf) = true := by
  unfold endsWithL
  rw [List.reverse_append, dropPre_append]
  rfl

/-- A summary ending in a pattern instance, with no `'I'` before it, has
exactly that trailing instance replaced by the corrected sentence. -/
theorem fixSummary_tail_inst (ni cal : Int) (a ds1 ds2 : List Char)
    (ha : 'I' ∉ a) (h1 : dsOK ds1) (h2 : dsOK ds2) :
    fixSummary (investLine ni cal) (a ++ instLine ds1 ds2) =
      a ++ investLine ni cal := by
  unfold fixSummary
  rw [subInvest_tail_inst (investLine ni cal) a ds1 ds2 ha h1 h2]
  have hne : a ++ investLine ni cal ≠ [] := by
    intro h
    rcases List.append_eq_nil.mp h with ⟨_, h2⟩
    exact investLine_ne_nil ni cal h2
  simp [hne]

/-! ### Reduction lemmas for the outer operation -/

theorem analyzeG_ok (j : JVal) (is : Int) :
    analyzeG (Except.ok j) is =
      (match analyzeCoreG is j with
       | Except.ok d => d
       | Except.error e =>
         errorDictG is ("Analysis failed: ".toList ++ pyMsg e)) := rfl

theorem analyzeB_ok (j : JVal) :
    analyzeB (Except.ok j) =
      (match analyzeCoreB j with
       | Except.ok d => d
       | Except.error e =>
         errorDictB ("Analysis failed: ".toList ++ pyMsg e)) := rfl

/-! ### Claim theorems -/

/-- C1: for every non-error result of normalization the overall aggregate
equals the recomputed per-criterion sum — `overall.improved_score` equals
`sumImp r` (the sum of the six criteria's `improved_score` values of the
result) in the guided variant, `overall.score` equals `sumScore r` in the
baseline variant — and every per-criterion score field lies in
`{0} ∪ [1,5]`. -/
theorem normalized_aggregate_equals_sum :
    (∀ (is : Int) (j : JVal) (r : Dict), analyzeCoreG is j = Except.ok r →
      (∃ o : Dict, dget r "overall" = some (JVal.jobj o) ∧
        dget o "improved_score" = some (JVal.jint (sumImp r))) ∧
      (∀ c ∈ critNames, ∃ (s : Dict) (m m2 : Int),
        dget r c = some (JVal.jobj s) ∧
        dget s "improved_score" = some (JVal.jint m) ∧ getImp r c = m ∧
        (m = 0 ∨ (1 ≤ m ∧ m ≤ 5)) ∧
        dget s "score" = some (JVal.jint m2) ∧
        (m2 = 0 ∨ (1 ≤ m2 ∧ m2 ≤ 5)))) ∧
    (∀ (j : JVal) (r : Dict), analyzeCoreB j = Except.ok r →
      (∃ o : Dict, dget r "overall" = some (JVal.jobj o) ∧
        dget o "score" = some (JVal.jint (sumScore r))) ∧
      (∀ c ∈ critNames, ∃ (s : Dict) (m : Int),
        dget r c = some (JVal.jobj s) ∧
        dget s "score" = some (JVal.jint m) ∧ getScore r c = m ∧
        (m = 0 ∨ (1 ≤ m ∧ m ≤ 5)))) := by
  constructor
  · intro is j r h
    obtain ⟨hcrit, o', ho', himp, _⟩ := analyzeCoreG_struct h
    refine ⟨⟨o', ho', himp⟩, ?_⟩
    intro c hc
    obtain ⟨s, hs, ⟨m, hm, hmr, hgi⟩, ⟨m2, hm2, hm2r⟩⟩ := hcrit c hc
    exact ⟨s, m, m2, hs, hm, hgi, hmr, hm2, hm2r⟩
  · intro j r h
    obtain ⟨hcrit, o', ho', hsc, _⟩ := analyzeCoreB_struct h
    refine ⟨⟨o', ho', hsc⟩, ?_⟩
    intro c hc
    obtain ⟨s, hs, m, hm, hmr, hgs⟩ := hcrit c hc
    exact ⟨s, m, hs, hm, hgs, Or.inr hmr⟩

/-- Witness for C1 at concrete conformant responses of both variants. -/
theorem normalized_aggregate_equals_sum_witness :
    (analyzeCoreG 12 (JVal.jobj exRespG) = Except.ok exRespG ∧
      ∃ o : Dict, dget exRespG "overall" = some (JVal.jobj o) ∧
        dget o "improved_score" = some (JVal.jint (sumImp exRespG))) ∧
    (analyzeCoreB (JVal.jobj exRespB) = Except.ok exRespB ∧
      ∃ o : Dict, dget exRespB "overall" = some (JVal.jobj o) ∧
        dget o "score" = some (JVal.jint (sumScore exRespB))) :=
  ⟨⟨rfl, (normalized_aggregate_equals_sum.1 12 (JVal.jobj exRespG) exRespG rfl).1⟩,
   ⟨rfl, (normalized_aggregate_equals_sum.2 (JVal.jobj exRespB) exRespB rfl).1⟩⟩

/-- C3: a failing model invocation / parse yields the Error Result with a
non-empty `error` field, all nine sections present with defaults, and the
operation never propagates an exception — every outcome, success or
failure, in either variant, is a dictionary carrying all nine required
sections. -/
theorem parse_failure_error_result :
    (∀ (m : List Char) (is : Int),
      analyzeG (Except.error m) is =
        errorDictG is ("Analysis failed: ".toList ++ m) ∧
      ("Analysis failed: ".toList ++ m) ≠ [] ∧
      dget (errorDictG is ("Analysis failed: ".toList ++ m)) "error" =
        some (JVal.jstr ("Analysis failed: ".toList ++ m))) ∧
    (∀ m : List Char,
      analyzeB (Except.error m) =
        errorDictB ("Analysis failed: ".toList ++ m)) ∧
    (∀ (resp : Except (List Char) JVal) (is : Int),
      ∀ k ∈ requiredSections, (dget (analyzeG resp is) k).isSome) ∧
    (∀ resp : Except (List Char) JVal,
      ∀ k ∈ requiredSections, (dget (analyzeB resp) k).isSome) ∧
    (∀ (is : Int) (m : List Char),
      dget (errorDictG is m) "Independent" = some (JVal.jobj critDefaultG) ∧
      dget (errorDictG is m) "Testable" = some (JVal.jobj critDefaultG) ∧
      dget (errorDictG is m) "OriginalUserStory" = some userStoryDefault ∧
      getInt2 (errorDictG is m) "overall" "improved_score" = some 0) := by
  refine ⟨?_, ?_, ?_, ?_, ?_⟩
  · intro m is
    exact ⟨rfl, by simp, rfl⟩
  · intro m
    rfl
  · intro resp is k hk
    cases resp with
    | error m => exact errorDictG_sections is _ k hk
    | ok j =>
      rw [analyzeG_ok]
      rcases h : analyzeCoreG is j with e | dd
      · exact errorDictG_sections is _ k hk
      · exact analyzeCoreG_sections h k hk
  · intro resp k hk
    cases resp with
    | error m => exact errorDictB_sections _ k hk
    | ok j =>
      rw [analyzeB_ok]
      rcases h : analyzeCoreB j with e | dd
      · exact errorDictB_sections _ k hk
      · exact analyzeCoreB_sections h k hk
  · intro is m
    exact ⟨rfl, rfl, rfl, rfl⟩

/-- Witness for C3 at a concrete failure message and a concrete successful
response. -/
theorem parse_failure_error_result_witness :
    (analyzeG (Except.error "boom".toList) 7 =
      errorDictG 7 ("Analysis failed: ".toList ++ "boom".toList)) ∧
    ("Testable" ∈ requiredSections ∧
      (dget (analyzeG (Except.ok (JVal.jobj exRespG)) 12) "Testable").isSome) :=
  ⟨(parse_failure_error_result.1 "boom".toList 7).1,
   ⟨by decide,
    parse_failure_error_result.2.2.1 (Except.ok (JVal.jobj exRespG)) 12
      "Testable" (by decide)⟩⟩

/-- C10: on any failure in the guided variant the Error Result carries the
caller-supplied `input_score` (not zeroed), every other numeric field is 0,
the summary is the fixed text `Error in analysis`, every other text field is
empty, and the `error` field begins with `Analysis failed: `. -/
theorem error_result_carries_input_score :
    ∀ (is : Int) (msg : List Char),
      getInt2 (errorDictG is msg) "overall" "input_score" = some is ∧
      getInt2 (errorDictG is msg) "overall" "improved_score" = some 0 ∧
      (∀ c ∈ critNames,
        dget (errorDictG is msg) c = some (JVal.jobj critDefaultG)) ∧
      getStr2 (errorDictG is msg) "overall" "summary" =
        some "Error in analysis".toList ∧
      getStr2 (errorDictG is msg) "overall" "refinement_summary" = some [] ∧
      dget (errorDictG is msg) "OriginalUserStory" = some userStoryDefault ∧
      dget (errorDictG is msg) "ImprovedUserStory" = some userStoryDefault ∧
      (∀ j e, analyzeCoreG is j = Except.error e →
        analyzeG (Except.ok j) is =
          errorDictG is ("Analysis failed: ".toList ++ pyMsg e)) ∧
      (∀ m, analyzeG (Except.error m) is =
        errorDictG is ("Analysis failed: ".toList ++ m)) ∧
      dropPre "Analysis failed: ".toList ("Analysis failed: ".toList ++ msg) =
        some msg := by
  intro is msg
  refine ⟨rfl, rfl, ?_, rfl, rfl, rfl, rfl, ?_, fun m => rfl, dropPre_append _ _⟩
  · intro c hc
    simp [critNames] at hc
    rcases hc with rfl | rfl | rfl | rfl | rfl | rfl <;> rfl
  · intro j e h
    rw [analyzeG_ok, h]

/-- Witness for C10 at a concrete score, message and failing response. -/
theorem error_result_carries_input_score_witness :
    getInt2 (errorDictG 9 "x".toList) "overall" "input_score" = some 9 ∧
    ("Independent" ∈ critNames ∧
      dget (errorDictG 9 "x".toList) "Independent" =
        some (JVal.jobj critDefaultG)) ∧
    (analyzeCoreG 9 JVal.jnull = Except.error PyErr.typeError ∧
      analyzeG (Except.ok JVal.jnull) 9 =
        errorDictG 9 ("Analysis failed: ".toList ++ pyMsg PyErr.typeError)) :=
  ⟨(error_result_carries_input_score 9 "x".toList).1,
   ⟨by decide,
    (error_result_carries_input_score 9 "x".toList).2.2.1 "Independent"
      (by decide)⟩,
   ⟨rfl,
    (error_result_carries_input_score 9 "x".toList).2.2.2.2.2.2.2.1
      JVal.jnull PyErr.typeError rfl⟩⟩

/-- C2 (counterexample): a mismatching response whose refinement summary is
the non-empty text `No details.` — which contains no score sentence — is
returned with that summary **unchanged**: nothing is appended and the
result does not end with `INVEST Score improved from 3/30 to 6/30`, even
though the aggregate was corrected from 10 to 6. -/
theorem summary_rewrite_cex :
    analyzeCoreG 3 (JVal.jobj (mkRespC2 "No details.".toList)) =
      Except.ok (mkOutC2 "No details.".toList) ∧
    getStr2 (mkOutC2 "No details.".toList) "overall" "refinement_summary" =
      some "No details.".toList ∧
    getInt2 (mkRespC2 "No details.".toList) "overall" "improved_score" =
      some 10 ∧
    getInt2 (mkOutC2 "No details.".toList) "overall" "improved_score" =
      some 6 ∧
    endsWithL (investLine 3 6) "No details.".toList = false := by
  have hupd : subInvest (investLine 3 6) "No details.".toList =
      "No details.".toList :=
    subInvest_no_I _ _ (by decide)
  have hfix : fixSummary (investLine 3 6) "No details.".toList =
      "No details.".toList := by
    unfold fixSummary
    rw [hupd]
    simp
  refine ⟨?_, ?_, rfl, rfl, by decide⟩
  · unfold analyzeCoreG
    simp only []
    rw [show ensureList (sectionDefaultG 3) (mkRespC2 "No details.".toList)
          requiredSections = mkRespC2 "No details.".toList from rfl]
    rw [show fixCritsG (mkRespC2 "No details.".toList) critNames =
          Except.ok (mkRespC2 "No details.".toList) from rfl]
    show fixOverallG 3 (sumImp (mkRespC2 "No details.".toList))
        (mkRespC2 "No details.".toList) =
      Except.ok (mkOutC2 "No details.".toList)
    rw [show sumImp (mkRespC2 "No details.".toList) = 6 from rfl]
    exact @fixOverallG_mismatch 3 6 (mkRespC2 "No details.".toList)
      [("input_score", JVal.jint 3), ("improved_score", JVal.jint 10),
       ("summary", JVal.jstr []),
       ("refinement_summary", JVal.jstr "No details.".toList)]
      3 10 "No details.".toList rfl rfl (by decide) (by decide) rfl
      (by decide) (by decide) (by decide) rfl
  · rw [show getStr2 (mkOutC2 "No details.".toList) "overall"
          "refinement_summary" =
        some (fixSummary (investLine 3 6) "No details.".toList) from rfl, hfix]

/-- C2 (amended): when the reported aggregate (already clamped into range)
disagrees with the recomputed sum, the guided Normalizer overwrites it with
the sum and passes `refinement_summary` through the fixed-pattern `re.sub`:
an empty summary is replaced by the freshly formatted sentence; a summary
ending in a pattern instance has that instance replaced, so the result ends
with the corrected line; a non-empty summary containing no occurrence of the
pattern is left unchanged — no sentence is appended to it. -/
theorem summary_rewrite_amended :
    (∀ (is cal : Int) (d o : Dict) (ni mi : Int) (cur : List Char),
      dget d "overall" = some (JVal.jobj o) →
      dget o "input_score" = some (JVal.jint ni) → 0 ≤ ni → ni ≤ 30 →
      dget o "improved_score" = some (JVal.jint mi) → 0 ≤ mi → mi ≤ 30 →
      mi ≠ cal →
      dget o "refinement_summary" = some (JVal.jstr cur) →
      fixOverallG is cal d = Except.ok (dset d "overall" (JVal.jobj
        (dset (dset o "improved_score" (JVal.jint cal)) "refinement_summary"
          (JVal.jstr (fixSummary (investLine ni cal) cur)))))) ∧
    (∀ fmt : List Char, fixSummary fmt [] = fmt) ∧
    (∀ fmt cur : List Char, 'I' ∉ cur → cur ≠ [] →
      fixSummary fmt cur = cur) ∧
    (∀ (ni cal : Int) (a ds1 ds2 : List Char),
      'I' ∉ a → dsOK ds1 → dsOK ds2 →
      fixSummary (investLine ni cal) (a ++ instLine ds1 ds2) =
        a ++ investLine ni cal ∧
      endsWithL (investLine ni cal) (a ++ investLine ni cal) = true) := by
  refine ⟨?_, fixSummary_empty, fixSummary_no_match, ?_⟩
  · intro is cal d o ni mi cur hg hin h0 h30 himp hm0 hm30 hne hcur
    exact fixOverallG_mismatch hg hin h0 h30 himp hm0 hm30 hne hcur
  · intro ni cal a ds1 ds2 ha h1 h2
    exact ⟨fixSummary_tail_inst ni cal a ds1 ds2 ha h1 h2,
      endsWithL_append _ _⟩

/-- Witness for the amended C2 at a concrete mismatching response with an
empty summary. -/
theorem summary_rewrite_amended_witness :
    (dget (mkRespC2 []) "overall" = some (JVal.jobj
      [("input_score", JVal.jint 3), ("improved_score", JVal.jint 10),
       ("summary", JVal.jstr []), ("refinement_summary", JVal.jstr [])]) ∧
     (10 : Int) ≠ 6 ∧
     fixOverallG 3 6 (mkRespC2 []) = Except.ok (dset (mkRespC2 []) "overall"
       (JVal.jobj (dset (dset
         [("input_score", JVal.jint 3), ("improved_score", JVal.jint 10),
          ("summary", JVal.jstr []), ("refinement_summary", JVal.jstr [])]
         "improved_score" (JVal.jint 6)) "refinement_summary"
         (JVal.jstr (fixSummary (investLine 3 6) [])))))) ∧
    fixSummary (investLine 3 6) [] = investLine 3 6 :=
  ⟨⟨rfl, by decide,
    summary_rewrite_amended.1 3 6 (mkRespC2 [])
      [("input_score", JVal.jint 3), ("improved_score", JVal.jint 10),
       ("summary", JVal.jstr []), ("refinement_summary", JVal.jstr [])]
      3 10 [] rfl rfl (by decide) (by decide) rfl (by decide) (by decide)
      (by decide) rfl⟩,
   summary_rewrite_amended.2.1 (investLine 3 6)⟩

/-- C4 (counterexample): in the baseline variant a criterion whose `score`
field is absent is not set to the sentinel 0 — the `KeyError` aborts the
whole normalization into the Error Result, which also wipes the sibling
criterion's valid score 4 down to 0. -/
theorem criterion_zeroing_cex :
    analyzeCoreB (JVal.jobj cexB4) = Except.error (PyErr.keyError "score") ∧
    analyzeB (Except.ok (JVal.jobj cexB4)) =
      errorDictB ("Analysis failed: ".toList ++ pyMsg (PyErr.keyError "score")) ∧
    getInt2 cexB4 "Negotiable" "score" = some 4 ∧
    getInt2 (errorDictB
        ("Analysis failed: ".toList ++ pyMsg (PyErr.keyError "score")))
      "Negotiable" "score" = some 0 :=
  ⟨rfl, rfl, rfl, rfl⟩

/-- C4 (amended): in the guided variant a criterion score field that is
absent or non-numeric becomes the sentinel 0 and a numeric one is coerced
and clamped into [1,5]; in the baseline variant normalization only succeeds
when every criterion's `score` is present and coercible by `int(·)` (which
also accepts numeric strings) — an absent or non-coercible score instead
aborts into the Error Result. -/
theorem criterion_coercion_amended :
    (∀ (s : Dict) (k : String),
      (dget s k = none → dget (fixField s k) k = some (JVal.jint 0)) ∧
      (∀ v, dget s k = some v → toNum v = none →
        dget (fixField s k) k = some (JVal.jint 0)) ∧
      (∀ v n, dget s k = some v → toNum v = some n →
        dget (fixField s k) k = some (JVal.jint (clamp15 n)) ∧
        1 ≤ clamp15 n ∧ clamp15 n ≤ 5)) ∧
    (∀ (is : Int) (d r : Dict) (c : String) (s : Dict),
      analyzeCoreG is (JVal.jobj d) = Except.ok r → c ∈ critNames →
      dget d c = some (JVal.jobj s) →
      dget r c = some (JVal.jobj
        (fixField (fixField s "score") "improved_score"))) ∧
    (∀ (d r : Dict) (c : String) (s : Dict),
      analyzeCoreB (JVal.jobj d) = Except.ok r → c ∈ critNames →
      dget d c = some (JVal.jobj s) →
      ∃ v n, dget s "score" = some v ∧ pyToInt v = Except.ok n ∧
        dget r c = some (JVal.jobj
          (dset s "score" (JVal.jint (clamp15 n))))) := by
  refine ⟨?_, ?_, ?_⟩
  · intro s k
    refine ⟨?_, ?_, ?_⟩
    · intro h
      unfold fixField
      rw [h]
      exact dget_dset_self s k _
    · intro v hv hn
      unfold fixField
      rw [hv]
      show dget (match toNum v with
                 | none => dset s k (JVal.jint 0)
                 | some n => dset s k (JVal.jint (clamp15 n))) k = _
      rw [hn]
      exact dget_dset_self s k _
    · intro v n hv hn
      refine ⟨?_, clamp15_cases n⟩
      unfold fixField
      rw [hv]
      show dget (match toNum v with
                 | none => dset s k (JVal.jint 0)
                 | some n => dset s k (JVal.jint (clamp15 n))) k = _
      rw [hn]
      exact dget_dset_self s k _
  · intro is d r c s h hc hs
    obtain ⟨d0, d2, hj, hcrit, hov⟩ := analyzeCoreG_split h
    injection hj with hd
    subst hd
    obtain ⟨o, o', ho, hr, _, _⟩ := fixOverallG_ok hov
    subst hr
    have hne : ("overall" : String) ≠ c := by
      simp [critNames] at hc
      rcases hc with rfl | rfl | rfl | rfl | rfl | rfl <;> decide
    obtain ⟨s0, hs0, hd2c⟩ :=
      fixCritsG_master critNames _ d2 (by decide) hcrit c hc
    have hpres : dget (ensureList (sectionDefaultG is) d requiredSections) c =
        some (JVal.jobj s) :=
      ensure_preserve _ requiredSections d c _ hs
    rw [hpres] at hs0
    have hss : s0 = s := (JVal.jobj.inj (Option.some.inj hs0)).symm
    subst hss
    rw [dget_dset_ne d2 "overall" c _ hne]
    exact hd2c
  · intro d r c s h hc hs
    obtain ⟨d0, d2, hj, hcrit, hov⟩ := analyzeCoreB_split h
    injection hj with hd
    subst hd
    obtain ⟨o, ho, n, hr⟩ := fixOverallB_ok hov
    subst hr
    have hne : ("overall" : String) ≠ c := by
      simp [critNames] at hc
      rcases hc with rfl | rfl | rfl | rfl | rfl | rfl <;> decide
    obtain ⟨s0, v, nn, hs0, hv, hn, hd2c⟩ :=
      fixCritsB_master critNames _ d2 (by decide) hcrit c hc
    have hpres : dget (ensureList sectionDefaultB d requiredSections) c =
        some (JVal.jobj s) :=
      ensure_preserve _ requiredSections d c _ hs
    rw [hpres] at hs0
    have hss : s0 = s := (JVal.jobj.inj (Option.some.inj hs0)).symm
    subst hss
    refine ⟨v, nn, hv, hn, ?_⟩
    rw [dget_dset_ne d2 "overall" c _ hne]
    exact hd2c

/-- Witness for the amended C4: a section without `score` is zeroed by the
guided field fix, and the guided/baseline integrations at concrete
responses. -/
theorem criterion_coercion_amended_witness :
    (dget ([("explanation", JVal.jstr [])] : Dict) "score" = none ∧
      dget (fixField [("explanation", JVal.jstr [])] "score") "score" =
        some (JVal.jint 0)) ∧
    (analyzeCoreG 12 (JVal.jobj exRespG) = Except.ok exRespG ∧
      "Independent" ∈ critNames ∧
      dget exRespG "Independent" = some (JVal.jobj
        (fixField (fixField critExG "score") "improved_score"))) ∧
    (analyzeCoreB (JVal.jobj exRespB) = Except.ok exRespB ∧
      ∃ v n, dget critExB "score" = some v ∧ pyToInt v = Except.ok n ∧
        dget exRespB "Independent" = some (JVal.jobj
          (dset critExB "score" (JVal.jint (clamp15 n))))) :=
  ⟨⟨rfl,
    (criterion_coercion_amended.1 [("explanation", JVal.jstr [])] "score").1
      rfl⟩,
   ⟨rfl, by decide,
    criterion_coercion_amended.2.1 12 exRespG exRespG "Independent" critExG
      rfl (by decide) rfl⟩,
   ⟨rfl,
    criterion_coercion_amended.2.2 exRespB exRespB "Independent" critExB
      rfl (by decide) rfl⟩⟩

/-- The baseline output for `exMissTestB`: the recomputed sum 16 overwrites
`overall.score` and the defaulted `Testable` section ends clamped at 1. -/
def exMissOutB : Dict :=
  [("OriginalUserStory", userStoryDefault),
   ("ImprovedUserStory", userStoryDefault),
   ("Independent", JVal.jobj critExB), ("Negotiable", JVal.jobj critExB),
   ("Valuable", JVal.jobj critExB), ("Estimable", JVal.jobj critExB),
   ("Small", JVal.jobj critExB),
   ("overall", JVal.jobj
     [("score", JVal.jint 16), ("improved_score", JVal.jint 0),
      ("summary", JVal.jstr []), ("refinement_summary", JVal.jstr [])]),
   ("Testable", JVal.jobj testableFixedB)]

/-- C5 (counterexample): for a guided response missing `Testable`, the
returned section is `{score: 1, improved_score: 1, ...}` — not the injected
default `{score: 0, ...}` — because the validation clamp
`max(1, min(5, int(0)))` lifts the injected 0 to 1. -/
theorem missing_testable_cex :
    dget exMissTest "Testable" = none ∧
    analyzeCoreG 6 (JVal.jobj exMissTest) =
      Except.ok (exMissTest ++ [("Testable", JVal.jobj testableFixedG)]) ∧
    getInt2 (exMissTest ++ [("Testable", JVal.jobj testableFixedG)])
      "Testable" "score" = some 1 ∧
    getInt2 (exMissTest ++ [("Testable", JVal.jobj testableFixedG)])
      "Testable" "score" ≠ some 0 :=
  ⟨rfl, rfl, rfl, by decide⟩

/-- C5 (amended): a response missing `Testable` has the default section
injected and then clamped — the returned Testable section is
`{score: 1, improved_score: 1, explanation: "", recommendation: ""}` in the
guided variant and `{score: 1, explanation: "", recommendation: ""}` in the
baseline variant — and no exception escapes the outer call: every outcome
carries all nine sections. -/
theorem missing_testable_amended :
    (∀ (is : Int) (d r : Dict), dget d "Testable" = none →
      analyzeCoreG is (JVal.jobj d) = Except.ok r →
      dget r "Testable" = some (JVal.jobj testableFixedG)) ∧
    (∀ d r : Dict, dget d "Testable" = none →
      analyzeCoreB (JVal.jobj d) = Except.ok r →
      dget r "Testable" = some (JVal.jobj testableFixedB)) ∧
    (∀ (resp : Except (List Char) JVal) (is : Int),
      (dget (analyzeG resp is) "Testable").isSome) := by
  refine ⟨fun is d r hm h => analyzeCoreG_testable_default hm h,
    fun d r hm h => analyzeCoreB_testable_default hm h, ?_⟩
  intro resp is
  cases resp with
  | error m => exact errorDictG_sections is _ "Testable" (by decide)
  | ok j =>
    rw [analyzeG_ok]
    rcases h : analyzeCoreG is j with e | dd
    · exact errorDictG_sections is _ "Testable" (by decide)
    · exact analyzeCoreG_sections h "Testable" (by decide)

/-- Witness for the amended C5 at concrete guided and baseline responses
missing `Testable`. -/
theorem missing_testable_amended_witness :
    (dget exMissTest "Testable" = none ∧
      analyzeCoreG 6 (JVal.jobj exMissTest) =
        Except.ok (exMissTest ++ [("Testable", JVal.jobj testableFixedG)]) ∧
      dget (exMissTest ++ [("Testable", JVal.jobj testableFixedG)])
        "Testable" = some (JVal.jobj testableFixedG)) ∧
    (dget exMissTestB "Testable" = none ∧
      analyzeCoreB (JVal.jobj exMissTestB) = Except.ok exMissOutB ∧
      dget exMissOutB "Testable" = some (JVal.jobj testableFixedB)) :=
  ⟨⟨rfl, rfl,
    missing_testable_amended.1 6 exMissTest
      (exMissTest ++ [("Testable", JVal.jobj testableFixedG)]) rfl rfl⟩,
   ⟨rfl, rfl,
    missing_testable_amended.2.1 exMissTestB exMissOutB rfl rfl⟩⟩

/-- C6 (counterexample): text outside string literals is *not* left
unchanged — the control character 0x07 preceding the literal is deleted by
the first sanitization pass (the newline inside the literal is escaped as
claimed). -/
theorem sanitize_outside_text_cex :
    sanitize (bellChar :: '"' :: 'a' :: '\n' :: 'b' :: '"' :: []) =
      ('"' :: 'a' :: '\\' :: 'n' :: 'b' :: '"' :: []) ∧
    bellChar ∈ (bellChar :: '"' :: 'a' :: '\n' :: 'b' :: '"' :: []) ∧
    bellChar ∉ ('"' :: 'a' :: '\\' :: 'n' :: 'b' :: '"' :: []) := by
  refine ⟨?_, by decide, by decide⟩
  unfold sanitize
  rw [show removeCtl (bellChar :: '"' :: 'a' :: '\n' :: 'b' :: '"' :: []) =
        ('"' :: 'a' :: '\n' :: 'b' :: '"' :: []) from rfl]
  have h2 : subLits ('"' :: 'a' :: '\n' :: 'b' :: '"' :: []) =
      '"' :: escClean ('a' :: '\n' :: 'b' :: []) ++ '"' :: subLits [] :=
    subLits_lit ('a' :: '\n' :: 'b' :: []) [] rfl
  rw [h2, show subLits [] = [] from by rw [subLits]]
  rfl

/-- C6 (amended): the sanitizer first deletes the removable control ranges
everywhere (so such characters outside literals are removed, and raw tabs
never survive to the escaping pass); on the remaining text, a quoted
literal's raw newlines (and tabs / carriage returns, had they survived) are
replaced by their two-character escapes and the text before the literal is
copied unchanged. -/
theorem sanitize_literal_newline_amended (pre content suf : List Char)
    (hctl : ∀ c ∈ pre ++ content ++ suf, isRemCtl c = false)
    (hq : '"' ∉ pre)
    (hm : matchLit (content ++ '"' :: suf) = some (content, suf)) :
    sanitize (pre ++ '"' :: content ++ '"' :: suf) =
      pre ++ '"' :: escClean content ++ '"' :: subLits suf ∧
    '\n' ∉ escClean content := by
  refine ⟨?_, escClean_no_newline content⟩
  unfold sanitize
  have hquote : isRemCtl '"' = false := by decide
  have hrc : removeCtl (pre ++ '"' :: content ++ '"' :: suf) =
      pre ++ '"' :: content ++ '"' :: suf := by
    apply removeCtl_keeps
    intro c hc
    rcases List.mem_append.mp hc with h1 | h2
    · rcases List.mem_append.mp h1 with h3 | h4
      · exact hctl c (by simp [List.mem_append, h3])
      · rcases List.mem_cons.mp h4 with h5 | h6
        · exact h5 ▸ hquote
        · exact hctl c (by simp [List.mem_append, h6])
    · rcases List.mem_cons.mp h2 with h7 | h8
      · exact h7 ▸ hquote
      · exact hctl c (by simp [List.mem_append, h8])
  rw [hrc]
  have e : pre ++ '"' :: content ++ '"' :: suf =
      pre ++ ('"' :: content ++ '"' :: suf) := by simp
  rw [e, subLits_noquote_append pre _ hq, subLits_lit content suf hm]
  simp

/-- Witness for the amended C6 at a concrete literal containing a raw
newline. -/
theorem sanitize_literal_newline_amended_witness :
    ((∀ c ∈ ("x: ".toList ++ ('a' :: '\n' :: 'b' :: []) ++ " y".toList),
        isRemCtl c = false) ∧
      '"' ∉ "x: ".toList ∧
      matchLit (('a' :: '\n' :: 'b' :: []) ++ '"' :: " y".toList) =
        some ('a' :: '\n' :: 'b' :: [], " y".toList)) ∧
    (sanitize ("x: ".toList ++ '"' :: ('a' :: '\n' :: 'b' :: []) ++
        '"' :: " y".toList) =
      "x: ".toList ++ '"' :: escClean ('a' :: '\n' :: 'b' :: []) ++
        '"' :: subLits " y".toList ∧
      '\n' ∉ escClean ('a' :: '\n' :: 'b' :: [])) :=
  ⟨⟨by decide, by decide, rfl⟩,
   sanitize_literal_newline_amended "x: ".toList ('a' :: '\n' :: 'b' :: [])
     " y".toList (by decide) (by decide) rfl⟩

/-- C7: the pipeline is the identity on already-correct input — sanitization
leaves text without removable control characters or raw
newline/tab/carriage-return unchanged, and normalization returns a
schema-conformant, internally consistent parsed response unchanged, in both
variants. -/
theorem roundtrip_identity :
    (∀ t : List Char,
      (∀ c ∈ t, isRemCtl c = false ∧ c ≠ '\n' ∧ c ≠ '\t' ∧ c ≠ '\r') →
      sanitize t = t) ∧
    (∀ (is : Int) (d : Dict), conformG d = true →
      analyzeCoreG is (JVal.jobj d) = Except.ok d) ∧
    (∀ d : Dict, conformB d = true →
      analyzeCoreB (JVal.jobj d) = Except.ok d) := by
  refine ⟨?_, analyzeCoreG_id, analyzeCoreB_id⟩
  intro t h
  exact sanitize_id t (fun c hc => (h c hc).1) (fun c hc => (h c hc).2)

/-- Witness for C7 at concrete clean text and conformant responses. -/
theorem roundtrip_identity_witness :
    ((∀ c ∈ "x: 1".toList,
        isRemCtl c = false ∧ c ≠ '\n' ∧ c ≠ '\t' ∧ c ≠ '\r') ∧
      sanitize "x: 1".toList = "x: 1".toList) ∧
    (conformG exRespG = true ∧
      analyzeCoreG 12 (JVal.jobj exRespG) = Except.ok exRespG) ∧
    (conformB exRespB = true ∧
      analyzeCoreB (JVal.jobj exRespB) = Except.ok exRespB) :=
  ⟨⟨by decide, roundtrip_identity.1 "x: 1".toList (by decide)⟩,
   ⟨rfl, roundtrip_identity.2.1 12 exRespG rfl⟩,
   ⟨rfl, roundtrip_identity.2.2 exRespB rfl⟩⟩

/-- C8 (counterexample): in the baseline variant a reported
`overall.improved_score` of −5 survives normalization —
`min(30, int(-5)) = -5` has no lower clamp, so the returned aggregate is
not in [0, 30]. -/
theorem baseline_negative_improved_cex :
    analyzeCoreB (JVal.jobj exRespBneg) = Except.ok exRespBneg ∧
    getInt2 exRespBneg "overall" "improved_score" = some (-5) ∧
    ¬(0 ≤ (-5 : Int)) :=
  ⟨rfl, rfl, by decide⟩

/-- C8 (amended): the guided variant keeps `overall.input_score` and
`overall.improved_score` in [0, 30] (the caller's score substitutes a
missing/malformed one before the clamp); the baseline variant keeps the
recomputed `overall.score` in [0, 30] but only clamps
`overall.improved_score` from above — negative reported values pass
through. -/
theorem overall_range_amended :
    (∀ (is : Int) (j : JVal) (r : Dict), analyzeCoreG is j = Except.ok r →
      ∃ o : Dict, dget r "overall" = some (JVal.jobj o) ∧
        (∃ iv, dget o "input_score" = some (JVal.jint iv) ∧
          0 ≤ iv ∧ iv ≤ 30) ∧
        (∃ mv, dget o "improved_score" = some (JVal.jint mv) ∧
          0 ≤ mv ∧ mv ≤ 30)) ∧
    (∀ (j : JVal) (r : Dict), analyzeCoreB j = Except.ok r →
      ∃ o : Dict, dget r "overall" = some (JVal.jobj o) ∧
        (∃ sv, dget o "score" = some (JVal.jint sv) ∧ 0 ≤ sv ∧ sv ≤ 30) ∧
        (∃ mv, dget o "improved_score" = some (JVal.jint mv) ∧ mv ≤ 30)) := by
  constructor
  · intro is j r h
    obtain ⟨hcrit, o', ho', himp, hiv⟩ := analyzeCoreG_struct h
    have hb : ∀ c ∈ critNames, 0 ≤ getImp r c ∧ getImp r c ≤ 5 := by
      intro c hc
      obtain ⟨s, hs, ⟨m, hm, hmr, hgi⟩, _⟩ := hcrit c hc
      rw [hgi]
      omega
    have h1 := hb "Independent" (by decide)
    have h2 := hb "Negotiable" (by decide)
    have h3 := hb "Valuable" (by decide)
    have h4 := hb "Estimable" (by decide)
    have h5 := hb "Small" (by decide)
    have h6 := hb "Testable" (by decide)
    have hsum : sumImp r = getImp r "Independent" + (getImp r "Negotiable" +
        (getImp r "Valuable" + (getImp r "Estimable" +
        (getImp r "Small" + getImp r "Testable")))) := by
      simp [sumImp, critNames]
    refine ⟨o', ho', hiv, sumImp r, himp, ?_, ?_⟩ <;> rw [hsum] <;> omega
  · intro j r h
    obtain ⟨hcrit, o', ho', hsc, n, himp⟩ := analyzeCoreB_struct h
    have hb : ∀ c ∈ critNames, 1 ≤ getScore r c ∧ getScore r c ≤ 5 := by
      intro c hc
      obtain ⟨s, hs, m, hm, hmr, hgs⟩ := hcrit c hc
      rw [hgs]
      omega
    have h1 := hb "Independent" (by decide)
    have h2 := hb "Negotiable" (by decide)
    have h3 := hb "Valuable" (by decide)
    have h4 := hb "Estimable" (by decide)
    have h5 := hb "Small" (by decide)
    have h6 := hb "Testable" (by decide)
    have hsum : sumScore r = getScore r "Independent" + (getScore r "Negotiable" +
        (getScore r "Valuable" + (getScore r "Estimable" +
        (getScore r "Small" + getScore r "Testable")))) := by
      simp [sumScore, critNames]
    refine ⟨o', ho', ⟨sumScore r, hsc, ?_, ?_⟩, min 30 n, himp, ?_⟩
    · rw [hsum]; omega
    · rw [hsum]; omega
    · omega

/-- Witness for the amended C8 at concrete responses of both variants. -/
theorem overall_range_amended_witness :
    (analyzeCoreG 12 (JVal.jobj exRespG) = Except.ok exRespG ∧
      ∃ o : Dict, dget exRespG "overall" = some (JVal.jobj o) ∧
        (∃ iv, dget o "input_score" = some (JVal.jint iv) ∧
          0 ≤ iv ∧ iv ≤ 30) ∧
        (∃ mv, dget o "improved_score" = some (JVal.jint mv) ∧
          0 ≤ mv ∧ mv ≤ 30)) ∧
    (analyzeCoreB (JVal.jobj exRespBneg) = Except.ok exRespBneg ∧
      ∃ o : Dict, dget exRespBneg "overall" = some (JVal.jobj o) ∧
        (∃ sv, dget o "score" = some (JVal.jint sv) ∧ 0 ≤ sv ∧ sv ≤ 30) ∧
        (∃ mv, dget o "improved_score" = some (JVal.jint mv) ∧ mv ≤ 30)) :=
  ⟨⟨rfl, overall_range_amended.1 12 (JVal.jobj exRespG) exRespG rfl⟩,
   ⟨rfl, overall_range_amended.2 (JVal.jobj exRespBneg) exRespBneg rfl⟩⟩

/-- The user-story object inside `exEnvelope`. -/
def exUS : JVal :=
  JVal.jobj
    [("Title", JVal.jstr "t".toList), ("Description", JVal.jstr "d".toList),
     ("AcceptanceCriteria", JVal.jarr []),
     ("AdditionalInformation", JVal.jstr "i".toList)]

/-- C9: after a successful guided preprocessing, the prompt builder emits
exactly the system and human messages, and whenever the aspects-to-enhance
(resp. additional-context) hint is missing or empty in the envelope, the
human message contains the literal placeholder sentence rather than an
empty field. -/
theorem prompt_placeholder (d : Dict) (us : JVal) (asp ctx : List Char)
    (sc : Int)
    (h : preprocessG (JVal.jobj d) = Except.ok (us, asp, ctx, sc)) :
    createAnalysisPromptG us asp ctx sc =
      [("system", systemTextG),
       ("human", humanTextG (userStoryText us) asp ctx sc)] ∧
    ((dget d "aspects_to_enhance" = none ∨
        dget d "aspects_to_enhance" = some (JVal.jstr [])) →
      asp = phAspects ∧
      isSubstring phAspects (humanTextG (userStoryText us) asp ctx sc) =
        true) ∧
    ((dget d "additional_context" = none ∨
        dget d "additional_context" = some (JVal.jstr [])) →
      ctx = phContext ∧
      isSubstring phContext (humanTextG (userStoryText us) asp ctx sc) =
        true) := by
  obtain ⟨aspects, ctx0, ha, hc, hasp, hctx⟩ := preprocessG_ok h
  refine ⟨rfl, ?_, ?_⟩
  · intro he
    have h0 : strField d "aspects_to_enhance" = Except.ok [] :=
      strField_empty he
    have haspnil : aspects = [] := Except.ok.inj (ha.symm.trans h0)
    subst haspnil
    simp only [if_pos rfl] at hasp
    subst hasp
    refine ⟨rfl, ?_⟩
    have hsub := isSubstring_parts phAspects
      (humG1 ++ userStoryText us ++ humG2)
      (humG3 ++ ctx ++ humG4 ++ intChars sc ++ humG5 ++ intChars sc ++
        humG6 ++ intChars sc ++ humG7)
    simp only [humanTextG, List.append_assoc] at hsub ⊢
    exact hsub
  · intro he
    have h0 : strField d "additional_context" = Except.ok [] :=
      strField_empty he
    have hctxnil : ctx0 = [] := Except.ok.inj (hc.symm.trans h0)
    subst hctxnil
    simp only [if_pos rfl] at hctx
    subst hctx
    refine ⟨rfl, ?_⟩
    have hsub := isSubstring_parts phContext
      (humG1 ++ userStoryText us ++ humG2 ++ asp ++ humG3)
      (humG4 ++ intChars sc ++ humG5 ++ intChars sc ++ humG6 ++
        intChars sc ++ humG7)
    simp only [humanTextG, List.append_assoc] at hsub ⊢
    exact hsub

/-- Witness for C9 at an envelope with both hint keys absent. -/
theorem prompt_placeholder_witness :
    preprocessG (JVal.jobj exEnvelope) =
      Except.ok (exUS, phAspects, phContext, 0) ∧
    (createAnalysisPromptG exUS phAspects phContext 0 =
      [("system", systemTextG),
       ("human", humanTextG (userStoryText exUS) phAspects phContext 0)] ∧
    ((dget exEnvelope "aspects_to_enhance" = none ∨
        dget exEnvelope "aspects_to_enhance" = some (JVal.jstr [])) →
      phAspects = phAspects ∧
      isSubstring phAspects
        (humanTextG (userStoryText exUS) phAspects phContext 0) = true) ∧
    ((dget exEnvelope "additional_context" = none ∨
        dget exEnvelope "additional_context" = some (JVal.jstr [])) →
      phContext = phContext ∧
      isSubstring phContext
        (humanTextG (userStoryText exUS) phAspects phContext 0) = true)) :=
  ⟨rfl, prompt_placeholder exEnvelope exUS phAspects phContext 0 rfl⟩
